import Mathlib

/-!
# Ingress routing handler of the gateway

A shallow embedding of `gateway/modules/global/routing/http.go`:
`HandleRoutes`, `getHostAndURL`, `rewriteURL`, `setRequest` and `prepareHeaders`.

* Go strings are modelled as lists of characters (`Str`).
* The handler is modelled as a function from its collaborators (`Env`) and the
  inbound request to the ordered list of observable events it performs: every
  collaborator call, every write to the `http.ResponseWriter`, every log line,
  and a run-time panic if one occurs.
* Collaborators whose code is outside this file of the repository (route
  matcher, auth module, target selector, expression evaluator, cache store,
  HTTP client, response post-processor) and the standard-library renderers
  `(*url.URL).String` and `json.Marshal` are fields of `Env`.
* `int` is taken to be 64 bits wide, as on every 64-bit Go platform.
* Of the `http.ResponseWriter` the model keeps the panic of `WriteHeader` for a
  status code outside 100..999 (`writeStatus`); its writes are otherwise taken to
  succeed. A failing read of the upstream body is part of the model (`Body.err`).
* The two deferred `utils.CloseTheCloser` calls are not part of the event list.
-/

namespace Routing

/-- Go `string`, as the list of its characters. -/
abbrev Str := List Char

/-! ## Standard-library string functions used by the handler -/

/-- `strings.Split(s, sep)` for a one-character separator, which is what every call
site of the file uses (`","`, `"="`, `":"`). The result always has at least one
element; `Split "" sep = [""]`. -/
def Split : Str → Char → List Str
  | [], _ => [[]]
  | c :: cs, sep =>
    if c = sep then [] :: Split cs sep
    else
      match Split cs sep with
      | [] => [[c]]
      | p :: ps => (c :: p) :: ps

/-- `unicode.IsSpace`: the white-space characters removed by `strings.TrimSpace`. -/
def isSpace (c : Char) : Bool :=
  c = '\t' || c = '\n' || c.toNat = 0x0B || c.toNat = 0x0C || c = '\r' || c = ' '
    || c.toNat = 0x85 || c.toNat = 0xA0 || c.toNat = 0x1680
    || (0x2000 ≤ c.toNat && c.toNat ≤ 0x200A)
    || c.toNat = 0x2028 || c.toNat = 0x2029 || c.toNat = 0x202F
    || c.toNat = 0x205F || c.toNat = 0x3000

/-- `strings.TrimSpace`: drops leading and trailing white space. -/
def TrimSpace (s : Str) : Str :=
  ((s.dropWhile isSpace).reverse.dropWhile isSpace).reverse

/-- `strings.HasPrefix(s, pre)`. -/
def HasPrefix (s pre : Str) : Bool := pre.isPrefixOf s

/-- `strings.TrimPrefix(s, pre)`: `s` without the leading `pre`, or `s` itself when
`s` does not start with `pre`. -/
def TrimPrefix (s pre : Str) : Str :=
  if HasPrefix s pre then s.drop pre.length else s

/-! ## `strconv.Atoi` -/

/-- The two failure kinds of `strconv`: `ErrSyntax` and `ErrRange`. -/
inductive NumError
  | ErrSyntax
  | ErrRange
  deriving DecidableEq, Repr

/-- Text of the error kind, as `strconv` words it. -/
def NumError.Error : NumError → Str
  | .ErrSyntax => "invalid syntax".toList
  | .ErrRange => "value out of range".toList

/-- Value of a decimal digit character, if it is one. -/
def digitValue (c : Char) : Option Nat :=
  if 48 ≤ c.toNat ∧ c.toNat ≤ 57 then some (c.toNat - 48) else none

/-- The digit loop of `strconv.ParseUint(s, 10, 64)`: a non-digit is a syntax error
(value 0); as soon as the accumulated value leaves the 64-bit range the loop stops
with a range error and the value `2^64 - 1`, without reading further. -/
def parseUintLoop (n : Nat) : Str → Nat × Option NumError
  | [] => (n, none)
  | c :: cs =>
    match digitValue c with
    | none => (0, some .ErrSyntax)
    | some d =>
      if 2 ^ 64 ≤ n * 10 + d then (2 ^ 64 - 1, some .ErrRange)
      else parseUintLoop (n * 10 + d) cs

/-- `strconv.ParseUint(s, 10, 64)`: the empty string is a syntax error. -/
def ParseUint (s : Str) : Nat × Option NumError :=
  match s with
  | [] => (0, some .ErrSyntax)
  | _ => parseUintLoop 0 s

/-- `strconv.ParseInt(s, 10, 64)`: optional sign, then `ParseUint`; a syntax error
gives 0, a magnitude outside the signed range gives the nearest bound together with
a range error. -/
def ParseInt (s : Str) : Int × Option NumError :=
  match s with
  | [] => (0, some .ErrSyntax)
  | c :: cs =>
    let neg : Bool := c = '-'
    let digits : Str := if c = '+' ∨ c = '-' then cs else s
    match ParseUint digits with
    | (_, some .ErrSyntax) => (0, some .ErrSyntax)
    | (un, _) =>
      if neg = false ∧ 2 ^ 63 ≤ un then ((2 : Int) ^ 63 - 1, some .ErrRange)
      else if neg = true ∧ 2 ^ 63 < un then (-(2 : Int) ^ 63, some .ErrRange)
      else (if neg then -(un : Int) else (un : Int), none)

/-- `strconv.Atoi(s)` with a 64-bit `int`: its fast path for short inputs computes
the same pair as `ParseInt(s, 10, 0)`, which is what the slow path calls. -/
def Atoi (s : Str) : Int × Option NumError := ParseInt s

/-! ## Data model -/

/-- Go `interface` values that flow through the expression evaluator: JSON-like
trees. `str` is the case picked by the type assertion `value.(string)`. -/
inductive Value
  | null
  | bool (b : Bool)
  | num (n : Int)
  | str (s : Str)
  | arr (xs : List Value)
  | map (kvs : List (Str × Value))

/-- `http.Header`: header name to its ordered sequence of values, listed in the
order in which `range` visits the map. -/
abbrev Header := List (Str × List Str)

/-- `http.Header.Get` for an already canonical key: the first value stored under
the key, or `""`. -/
def Header.Get (h : Header) (key : Str) : Str :=
  match h.lookup key with
  | some (v :: _) => v
  | _ => []

/-- `url.URL`, the fields the handler reads or writes. -/
structure URL where
  Scheme : Str
  Host : Str
  Path : Str
  RawQuery : Str

/-- `http.Request`, the fields the handler reads or writes. -/
structure Request where
  Method : Str
  Host : Str
  RequestURI : Str
  URL : URL
  Header : Header

/-- `config.Route.Source`: the match prefix and the optional rewrite prefix. -/
structure Source where
  URL : Str
  RewriteURL : Str

/-- `config.Route`, the fields the handler reads. -/
structure Route where
  ID : Str
  Source : Source
  IsRouteCacheable : Bool
  CacheOptions : List Str

/-- `config.RouteTarget`: one upstream endpoint. -/
structure Target where
  Host : Str
  Port : Int
  Scheme : Str

/-- `config.Header`: one configured header. -/
structure ConfigHeader where
  Key : Str
  Value : Str
  Op : Str

/-- A response body stream: the bytes it yields, then end of stream or a read error. -/
structure Body where
  data : Str
  err : Option Str

/-- `http.Response`, the fields the handler reads or writes. -/
structure Response where
  StatusCode : Nat
  Header : Header
  Body : Body

/-- `model.CacheIngressRoute`: a cache entry. -/
structure CacheIngressRoute where
  Headers : Header
  Body : Str

/-- What `modifyRequest` hands back: the request as it left it, and its four results. -/
structure ModifyResult where
  request : Request
  token : Str
  claims : Value
  status : Nat
  err : Option Str

/-- The four results of `caching.GetIngressRoute`; `result` is a pointer, `none` is nil. -/
structure LookupResult where
  key : Str
  isCacheHit : Bool
  result : Option CacheIngressRoute
  err : Option Str

/-- The collaborators of the handler, as functions of their arguments. Errors are
their message text. -/
structure Env where
  selectRoute : Str → Str → Str → Except Str Route
  modifyRequest : Route → Request → ModifyResult
  SelectTarget : Route → Int → Except Str Target
  LoadValue : Str → Value → Except Str Value
  GetIngressRoute : Str → List Value → LookupResult
  Do : Request → Except Str Response
  modifyResponse : Response → Route → Str → Value → Except Str Response
  SetIngressRouteKey : Str → Int → CacheIngressRoute → Option Str
  URLString : URL → Str
  Marshal : Value → Str

/-- Observable steps of one run of the handler, in program order. -/
inductive Event
  | selectRoute (host method url : Str)
  | modifyRequest (route : Route) (request : Request)
  | logDebug
  | logError (err : Str)
  | selectTarget (route : Route) (weight : Int)
  | loadValue (key : Str) (state : Value)
  | sendErrorResponse (status : Nat) (err : Str)
  | getIngressRoute (routeID : Str) (cacheOptions : List Value)
  | setHeader (k : Str) (v : List Str)
  | writeHeader (status : Nat)
  | encodeError (err : Str)
  | write (body : Str)
  | httpDo (request : Request)
  | modifyResponse (response : Response)
  | readAll
  | setIngressRouteKey (key : Str) (ttl : Int) (entry : CacheIngressRoute)
  | panicked

/-- Marks calls of the cache store's set operation. -/
def Event.isSet : Event → Bool
  | .setIngressRouteKey _ _ _ => true
  | _ => false

/-- Marks sends to the upstream target. -/
def Event.isHttpDo : Event → Bool
  | .httpDo _ => true
  | _ => false

/-- Marks calls of the response post-processor. -/
def Event.isModifyResponse : Event → Bool
  | .modifyResponse _ => true
  | _ => false

/-- Marks writes of the status line through `writer.WriteHeader`. -/
def Event.isWriteHeader : Event → Bool
  | .writeHeader _ => true
  | _ => false

/-- Marks the events that reach neither the client nor the cache store: collaborator
calls that only read, and debug log lines. -/
def Event.isQuiet : Event → Bool
  | .selectRoute _ _ _ => true
  | .modifyRequest _ _ => true
  | .logDebug => true
  | .selectTarget _ _ => true
  | .loadValue _ _ => true
  | .getIngressRoute _ _ => true
  | .httpDo _ => true
  | .modifyResponse _ => true
  | _ => false

/-- Marks the events that come before any upstream contact: the read-only
collaborator calls up to the cache lookup, and debug log lines. -/
def Event.isPrelude : Event → Bool
  | .selectRoute _ _ _ => true
  | .modifyRequest _ _ => true
  | .logDebug => true
  | .selectTarget _ _ => true
  | .loadValue _ _ => true
  | .getIngressRoute _ _ => true
  | _ => false

/-- The status an event puts on the wire, if it writes one: `writer.WriteHeader`, or
the status handed to `helpers.Response.SendErrorResponse`. -/
def Event.status? : Event → Option Nat
  | .writeHeader status => some status
  | .sendErrorResponse status _ => some status
  | _ => none

/-- The body bytes an event copies to the client, if it is an `io.Copy`. -/
def Event.body? : Event → Option Str
  | .write body => some body
  | _ => none

/-- The string held by a value, if it is a string. -/
def Value.str? : Value → Option Str
  | .str s => some s
  | _ => none

/-- Marks a run-time panic. -/
def Event.isPanic : Event → Bool
  | .panicked => true
  | _ => false

/-- The TTL of a set call, if the event is one. -/
def Event.ttl? : Event → Option Int
  | .setIngressRouteKey _ ttl _ => some ttl
  | _ => none

/-- The state handed to the expression evaluator, if the event is a call of it. -/
def Event.loadState? : Event → Option Value
  | .loadValue _ state => some state
  | _ => none

/-- Entry `key` of a Go map value. -/
def Value.entry? (key : Str) : Value → Option Value
  | .map kvs => kvs.lookup key
  | _ => none

/-! ## The functions of `http.go` -/

/-- `getHostAndURL`: element 0 of `request.Host` split on `":"`, and the URL path.
`none` stands for the index-out-of-range panic of `[0]`. -/
def getHostAndURL (request : Request) : Option (Str × Str) :=
  match (Split request.Host ':')[0]? with
  | none => none
  | some host => some (host, request.URL.Path)

/-- `rewriteURL`: when the route has a rewrite prefix, strip the source prefix from
the path and put the rewrite prefix in front. -/
def rewriteURL (url : Str) (route : Route) : Str :=
  if route.Source.RewriteURL ≠ [] then
    route.Source.RewriteURL ++ TrimPrefix url route.Source.URL
  else url

/-- `fmt.Sprintf("%s:%d", host, port)`. -/
def hostPort (host : Str) (port : Int) : Str :=
  host ++ ':' :: (toString port).toList

/-- `setRequest`: clears `RequestURI`, selects a target with weight `-1`, and points
the request at it. Returns the request as it leaves it and the error, if any. -/
def setRequest (env : Env) (request : Request) (route : Route) (url : Str) :
    Request × Option Str :=
  let request := { request with RequestURI := [] }
  match env.SelectTarget route (-1) with
  | .error err => (request, some err)
  | .ok target =>
    let scheme := if target.Scheme = [] then "http".toList else target.Scheme
    ({ request with
        Host := target.Host
        URL := { request.URL with
                  Host := hostPort target.Host target.Port
                  Path := url
                  Scheme := scheme } }, none)

/-- `prepareHeaders`: one output header per configured header, in order; the value is
the evaluated string, the marshalled evaluated value, or the configured literal when
evaluation fails. `env.Marshal` is the byte result of `json.Marshal`, whose error
the code discards. -/
def prepareHeaders (env : Env) (headers : List ConfigHeader) (state : Value) :
    List ConfigHeader :=
  headers.map fun header =>
    let h : ConfigHeader := { Key := header.Key, Value := header.Value, Op := header.Op }
    match env.LoadValue header.Value state with
    | .ok value =>
      match value with
      | .str temp => { h with Value := temp }
      | _ => { h with Value := env.Marshal value }
    | .error _ => h

/-- The state built at line 75: `args` holding `auth`, `token` and `url`. -/
def requestState (env : Env) (request : Request) (token : Str) (claims : Value) : Value :=
  .map [("args".toList,
    .map [("auth".toList, claims), ("token".toList, .str token),
          ("url".toList, .str (env.URLString request.URL))])]

/-- The loop of lines 74-81: evaluates the cache-key expressions in order, stopping
at the first failure. -/
def loadCacheOptions (env : Env) (state : Value) :
    List Str → List Value → List Event × Except Str (List Value)
  | [], cacheOptionsArray => ([], .ok cacheOptionsArray)
  | key :: rest, cacheOptionsArray =>
    match env.LoadValue key state with
    | .error err => ([.loadValue key state], .error err)
    | .ok value =>
      let r := loadCacheOptions env state rest (cacheOptionsArray ++ [value])
      (.loadValue key state :: r.1, r.2)

/-- The loop of lines 122-135 over the comma-separated pieces of the header:
the TTL text it leaves in `cacheTime` (`""` when none), or `none` when the read of
element 1 of the split on `"="` panics. -/
def scanCacheControl : List Str → Option Str
  | [] => some []
  | value :: rest =>
    if value = "no-cache".toList then some []
    else
      let value := TrimSpace value
      if HasPrefix value "max-age".toList then (Split value '=')[1]?
      else if HasPrefix value "s-maxage".toList then (Split value '=')[1]?
      else scanCacheControl rest

/-- The recurring `if err != nil { LogError(...) }`: one log line when there is an
error, nothing otherwise. -/
def logIfError : Option Str → List Event
  | some err => [.logError err]
  | none => []

/-- Lines 137-147, the store branch for the TTL text `cacheTime`: parse it (a failure
is logged), read the whole body (a failure is logged), call `SetIngressRouteKey` with
the parsed duration (a failure is logged). -/
def storeEvents (env : Env) (redisKey : Str) (response : Response) (cacheTime : Str) :
    List Event :=
  let parsed := Atoi cacheTime
  let duration := parsed.1
  let data := response.Body.data
  let entry : CacheIngressRoute := { Headers := response.Header, Body := data }
  logIfError (parsed.2.map NumError.Error)
    ++ Event.readAll :: logIfError response.Body.err
    ++ Event.setIngressRouteKey redisKey duration entry ::
      logIfError (env.SetIngressRouteKey redisKey duration entry)

/-- Line 148: the response after the store branch has read its body and wrapped the
bytes in a fresh reader. -/
def rewrapped (response : Response) : Response :=
  { response with Body := { data := response.Body.data, err := none } }

/-- Lines 119-150, the cache-store decision: the events it performs and the response
as it leaves it, or `none` when it panics. -/
def cacheStore (env : Env) (request : Request) (route : Route) (redisKey : Str)
    (response : Response) : Option (List Event × Response) :=
  let values := Header.Get response.Header "Cache-Control".toList
  if values ≠ [] ∧ route.IsRouteCacheable = true ∧ redisKey ≠ []
      ∧ request.Method = "GET".toList then
    match scanCacheControl (Split values ',') with
    | none => none
    | some cacheTime =>
      if cacheTime ≠ [] then
        some (storeEvents env redisKey response cacheTime, rewrapped response)
      else some ([], response)
  else some ([], response)

/-- `writer.WriteHeader(status)` and what the handler does after it: `net/http` checks
the code first and panics, before anything is written, when it is below 100 or above
999. The constants 200, 400 and 500 that the handler passes elsewhere pass the check,
so those calls are recorded as plain `writeHeader` events. -/
def writeStatus (status : Nat) (rest : List Event) : List Event :=
  if 100 ≤ status ∧ status ≤ 999 then Event.writeHeader status :: rest
  else [Event.panicked]

/-- Lines 152-164: copy the headers, write the status, copy the body (a failure of
the copy is logged). -/
def emitResponse (response : Response) : List Event :=
  response.Header.map (fun kv => Event.setHeader kv.1 kv.2)
    ++ writeStatus response.StatusCode
      (Event.write response.Body.data :: (logIfError response.Body.err ++ [Event.logDebug]))

/-- Lines 119-165: the cache-store decision followed by the emission of the response;
a panic in the former ends the run. -/
def storeAndEmit (env : Env) (request : Request) (route : Route) (redisKey : Str)
    (response : Response) : List Event :=
  match cacheStore env request route redisKey response with
  | none => [.panicked]
  | some r => r.1 ++ emitResponse r.2

/-- Lines 103-165: send upstream, post-process, decide on the store, emit. -/
def upstream (env : Env) (request : Request) (route : Route) (token : Str)
    (claims : Value) (redisKey : Str) : List Event :=
  .httpDo request ::
    match env.Do request with
    | .error err => [.writeHeader 500, .encodeError err, .logError err]
    | .ok response =>
      .modifyResponse response ::
        match env.modifyResponse response route token claims with
        | .error err => [.writeHeader 500, .encodeError err]
        | .ok response =>
          storeAndEmit env request route redisKey response

/-- Lines 71-101 and what follows them: the cache lookup of a cacheable GET, its
error exits, the cache-hit exit, and otherwise the upstream path. -/
def cacheLookup (env : Env) (request : Request) (route : Route) (token : Str)
    (claims : Value) : List Event :=
  if route.IsRouteCacheable = true ∧ request.Method = "GET".toList then
    match loadCacheOptions env (requestState env request token claims)
        route.CacheOptions [] with
    | (evs, .error err) => evs ++ [.sendErrorResponse 400 err]
    | (evs, .ok cacheOptionsArray) =>
      let r := env.GetIngressRoute route.ID cacheOptionsArray
      evs ++ .getIngressRoute route.ID cacheOptionsArray ::
        match r.err with
        | some err => [.sendErrorResponse 400 err]
        | none =>
          if r.isCacheHit = true then
            match r.result with
            | none => [.panicked]
            | some result =>
              result.Headers.map (fun kv => Event.setHeader kv.1 kv.2)
                ++ [.writeHeader 200, .write result.Body, .logDebug]
          else upstream env request route token claims r.key
  else upstream env request route token claims []

/-- `HandleRoutes`: the events of one run of the handler on `request`. -/
def HandleRoutes (env : Env) (request : Request) : List Event :=
  match getHostAndURL request with
  | none => [.panicked]
  | some (host, url) =>
    .selectRoute host request.Method url ::
      match env.selectRoute host request.Method url with
      | .error err => [.writeHeader 400, .encodeError err]
      | .ok route =>
        let m := env.modifyRequest route request
        .modifyRequest route request ::
          match m.err with
          | some err => writeStatus m.status [.encodeError err]
          | none =>
            let r := setRequest env m.request route (rewriteURL url route)
            .logDebug :: .selectTarget route (-1) ::
              match r.2 with
              | some err => [.writeHeader 500, .encodeError err, .logError err]
              | none => cacheLookup env r.1 route m.token m.claims

/-! ## Paths through the handler -/

/-- The request as `setRequest` leaves it, for the selected `route`. -/
def boundRequest (env : Env) (request : Request) (route : Route) : Request :=
  (setRequest env (env.modifyRequest route request).request route
    (rewriteURL request.URL.Path route)).1

/-- The run gets past route selection, `modifyRequest` and `setRequest`: `route` is
the selected route, and neither of the two later stages reports an error. -/
structure Bound (env : Env) (request : Request) (route : Route) : Prop where
  selected : ∃ host, getHostAndURL request = some (host, request.URL.Path)
    ∧ env.selectRoute host request.Method request.URL.Path = .ok route
  accepted : (env.modifyRequest route request).err = none
  targeted : (setRequest env (env.modifyRequest route request).request route
    (rewriteURL request.URL.Path route)).2 = none

/-- The run is a cacheable GET whose cache-key expressions all evaluate, to
`cacheOptions`: it reaches the call of `GetIngressRoute`. -/
structure Looked (env : Env) (request : Request) (route : Route)
    (cacheOptions : List Value) : Prop where
  bound : Bound env request route
  cacheable : route.IsRouteCacheable = true
  isGet : (boundRequest env request route).Method = "GET".toList
  evaluated : (loadCacheOptions env
      (requestState env (boundRequest env request route)
        (env.modifyRequest route request).token (env.modifyRequest route request).claims)
      route.CacheOptions []).2 = .ok cacheOptions

/-- The run is a cacheable GET whose lookup reports a miss with key `redisKey`, whose
upstream send succeeds and whose response post-processing succeeds, leaving
`response`: it reaches the cache-store decision. -/
structure Missed (env : Env) (request : Request) (route : Route) (redisKey : Str)
    (response : Response) : Prop where
  looked : ∃ cacheOptions, Looked env request route cacheOptions
    ∧ (env.GetIngressRoute route.ID cacheOptions).err = none
    ∧ (env.GetIngressRoute route.ID cacheOptions).isCacheHit = false
    ∧ (env.GetIngressRoute route.ID cacheOptions).key = redisKey
  answered : ∃ fresh, env.Do (boundRequest env request route) = .ok fresh
    ∧ env.modifyResponse fresh route (env.modifyRequest route request).token
        (env.modifyRequest route request).claims = .ok response

/-- The `Cache-Control` value the cache-store decision reads from `response`. -/
def cacheControl (response : Response) : Str :=
  Header.Get response.Header "Cache-Control".toList

/-! ## Observations on a run -/

/-- Marks the events the upstream path can perform from the send onwards. -/
def Event.isUpstreamStep : Event → Bool
  | .httpDo _ => true
  | .modifyResponse _ => true
  | .writeHeader _ => true
  | .encodeError _ => true
  | .logError _ => true
  | .logDebug => true
  | .readAll => true
  | .setIngressRouteKey _ _ _ => true
  | .setHeader _ _ => true
  | .write _ => true
  | .panicked => true
  | _ => false

/-- The `url` entry of the `args` map of an evaluator state, when it is a string. -/
def urlEntry? (state : Value) : Option Str :=
  ((state.entry? "args".toList).bind (Value.entry? "url".toList)).bind Value.str?

/-- The value an event stores under `k` in the writer's header map, if it is a
`writer.Header()[k] = v`. -/
def Event.headerWrite? (k : Str) : Event → Option (List Str)
  | .setHeader k' v => if k' = k then some v else none
  | _ => none

/-- The value the writer's header map holds under `k` after the events, starting
from an empty map: that of the last `writer.Header()[k] = v`. -/
def writerHeader (k : Str) : List Event → Option (List Str)
  | [] => none
  | e :: rest => (writerHeader k rest).or (e.headerWrite? k)

/-- A directive that starts with `max-age` or with `s-maxage`. -/
def isDuration (directive : Str) : Bool :=
  HasPrefix directive "max-age".toList || HasPrefix directive "s-maxage".toList

/-! ## An example deployment

One cacheable route keyed on the request URL, one target, an evaluator that looks
up `args.url`, a store that always misses, and an upstream that answers 200 with the
given `Cache-Control` value. -/

/-- Rendering of a URL whose parts need no escaping: `scheme://host/path?query`. -/
def renderURL (u : URL) : Str :=
  (if u.Scheme ≠ [] then u.Scheme ++ [':'] else [])
    ++ (if u.Scheme ≠ [] ∨ u.Host ≠ [] then '/' :: '/' :: u.Host else [])
    ++ u.Path ++ (if u.RawQuery ≠ [] then '?' :: u.RawQuery else [])

/-- The route of the example. -/
def exRoute : Route :=
  { ID := "r1".toList
    Source := { URL := "/api".toList, RewriteURL := [] }
    IsRouteCacheable := true
    CacheOptions := ["args.url".toList] }

/-- The target of the example. -/
def exTarget : Target := { Host := "svc".toList, Port := 8080, Scheme := [] }

/-- The upstream response of the example, carrying `cc` as `Cache-Control`. -/
def exResponse (cc : Str) : Response :=
  { StatusCode := 200
    Header := [("Cache-Control".toList, [cc]), ("Content-Type".toList, ["text/plain".toList])]
    Body := { data := "hello".toList, err := none } }

/-- The collaborators of the example. -/
def exEnv (cc : Str) : Env :=
  { selectRoute := fun _ _ _ => .ok exRoute
    modifyRequest := fun _ request =>
      { request := request, token := "tok".toList, claims := .null, status := 200, err := none }
    SelectTarget := fun _ _ => .ok exTarget
    LoadValue := fun key state =>
      if key = "args.url".toList then
        match (state.entry? "args".toList).bind (Value.entry? "url".toList) with
        | some v => .ok v
        | none => .error "not found".toList
      else .ok (.str key)
    GetIngressRoute := fun routeID _ =>
      { key := routeID, isCacheHit := false, result := none, err := none }
    Do := fun _ => .ok (exResponse cc)
    modifyResponse := fun response _ _ _ => .ok response
    SetIngressRouteKey := fun _ _ _ => none
    URLString := renderURL
    Marshal := fun _ => "null".toList }

/-- The inbound request of the example: `GET /api/items?x=1` for `example.com:8080`. -/
def exRequest : Request :=
  { Method := "GET".toList
    Host := "example.com:8080".toList
    RequestURI := "/api/items?x=1".toList
    URL := { Scheme := [], Host := [], Path := "/api/items".toList, RawQuery := "x=1".toList }
    Header := [] }

/-- The example deployment with a cache store whose lookup fails. -/
def exEnvLookupFails : Env :=
  { exEnv [] with
    GetIngressRoute := fun _ _ =>
      { key := [], isCacheHit := false, result := none,
        err := some "connection refused".toList } }

/-- The example deployment with another target. -/
def exEnvOtherTarget : Env :=
  { exEnv [] with
    SelectTarget := fun _ _ =>
      .ok { Host := "backup".toList, Port := 9090, Scheme := "https".toList } }

/-- A route that rewrites the prefix `/api` to `/v2`. -/
def exRewriteRoute : Route :=
  { ID := "r2".toList
    Source := { URL := "/api".toList, RewriteURL := "/v2".toList }
    IsRouteCacheable := false
    CacheOptions := [] }

/-- The example deployment with a cache store that reports a hit. -/
def exEnvHit : Env :=
  { exEnv [] with
    GetIngressRoute := fun routeID _ =>
      { key := routeID, isCacheHit := true,
        result := some { Headers := [("Content-Type".toList, ["text/plain".toList]),
                                     ("X-Tag".toList, ["a".toList, "b".toList])],
                         Body := "cached".toList },
        err := none } }

/-- An evaluator for the header example: `args.token` is a string, `args.auth` is a
map, everything else fails; maps are marshalled as an empty JSON object. -/
def exEnvHeaders : Env :=
  { exEnv [] with
    LoadValue := fun key _ =>
      if key = "args.token".toList then .ok (.str "tok".toList)
      else if key = "args.auth".toList then .ok (.map [])
      else .error "not found".toList
    Marshal := fun _ => "\x7b\x7d".toList }

/-- Three configured headers: one per outcome of the evaluation. -/
def exHeaders : List ConfigHeader :=
  [ { Key := "X-Token".toList, Value := "args.token".toList, Op := "set".toList },
    { Key := "X-Auth".toList, Value := "args.auth".toList, Op := "add".toList },
    { Key := "X-Plain".toList, Value := "plain".toList, Op := "del".toList } ]

/-- Marks the events that put something on the client connection or in the writer's
header map. -/
def Event.isClientWrite : Event → Bool
  | .setHeader _ _ => true
  | .writeHeader _ => true
  | .write _ => true
  | .encodeError _ => true
  | .sendErrorResponse _ _ => true
  | _ => false

/-- The run reaches the upstream send (line 104) with `redisKey` in hand: either the
route is not cacheable or the method is not GET, and the key is empty, or the lookup
of a cacheable GET reports a miss with that key. -/
structure Sent (env : Env) (request : Request) (route : Route) (redisKey : Str) :
    Prop where
  bound : Bound env request route
  keyed : (¬ (route.IsRouteCacheable = true
        ∧ (boundRequest env request route).Method = "GET".toList) ∧ redisKey = [])
    ∨ ∃ cacheOptions, Looked env request route cacheOptions
      ∧ (env.GetIngressRoute route.ID cacheOptions).err = none
      ∧ (env.GetIngressRoute route.ID cacheOptions).isCacheHit = false
      ∧ (env.GetIngressRoute route.ID cacheOptions).key = redisKey

/-- The example deployment with a route matcher that finds no route. -/
def exEnvNoRoute : Env :=
  { exEnv [] with selectRoute := fun _ _ _ => .error "route not found".toList }

/-- The example deployment with an upstream that cannot be reached. -/
def exEnvUpstreamDown : Env :=
  { exEnv [] with Do := fun _ => .error "connection refused".toList }

/-- The arguments of a cache lookup, if the event is a call of `GetIngressRoute`. -/
def Event.lookup? : Event → Option (Str × List Value)
  | .getIngressRoute routeID cacheOptions => some (routeID, cacheOptions)
  | _ => none

/-- The expression evaluated, if the event is a call of the expression evaluator. -/
def Event.loadKey? : Event → Option Str
  | .loadValue key _ => some key
  | _ => none

/-- A cacheable route keyed on three expressions. -/
def exRouteKeys : Route :=
  { ID := "r3".toList
    Source := { URL := "/api".toList, RewriteURL := [] }
    IsRouteCacheable := true
    CacheOptions := ["args.url".toList, "args.missing".toList, "args.token".toList] }

/-- The example deployment serving `exRouteKeys`, with an evaluator that knows
`args.url` and `args.token` and fails on everything else. -/
def exEnvKeys : Env :=
  { exEnv [] with
    selectRoute := fun _ _ _ => .ok exRouteKeys
    LoadValue := fun key _ =>
      if key = "args.url".toList then .ok (.str "u".toList)
      else if key = "args.token".toList then .ok (.str "tok".toList)
      else .error "not found".toList }

/-- The example deployment serving a route keyed on `args.url` and `args.token`. -/
def exEnvTwoKeys : Env :=
  { exEnvKeys with
    selectRoute := fun _ _ _ =>
      .ok { exRouteKeys with CacheOptions := ["args.url".toList, "args.token".toList] } }

/-- The state handed to the evaluator of the cache-key expressions in a run that
selects `route`. -/
def keyState (env : Env) (request : Request) (route : Route) : Value :=
  requestState env (boundRequest env request route)
    (env.modifyRequest route request).token (env.modifyRequest route request).claims

/-- The example deployment with a route that has no target to select. -/
def exEnvNoTarget : Env :=
  { exEnv [] with SelectTarget := fun _ _ => .error "no targets".toList }

/-- Marks the events that put body bytes on the client connection. -/
def Event.isBodyWrite : Event → Bool
  | .write _ => true
  | .encodeError _ => true
  | _ => false

/-- Marks the events that neither touch the client nor are a panic. -/
def Event.isInternal : Event → Bool
  | .setHeader _ _ => false
  | .writeHeader _ => false
  | .write _ => false
  | .encodeError _ => false
  | .sendErrorResponse _ _ => false
  | .panicked => false
  | _ => true

/-- A run is settled when either it writes a status exactly once, with no body byte
and no panic before it and no panic after it, or it writes no status and no body
byte and panics once. -/
def Settled (t : List Event) : Prop :=
  (∃ pre e post, t = pre ++ e :: post ∧ e.status?.isSome = true
      ∧ (∀ x ∈ pre, x.status? = none ∧ x.isBodyWrite = false)
      ∧ (∀ x ∈ post, x.status? = none)
      ∧ t.countP Event.isPanic = 0)
    ∨ ((∀ x ∈ t, x.status? = none ∧ x.isBodyWrite = false) ∧ t.countP Event.isPanic = 1)

/-! ## Path lemmas -/

theorem quiet_not_set {e : Event} (h : e.isQuiet = true) : e.ttl? = none := by
  cases e <;> simp_all [Event.isQuiet, Event.ttl?]

theorem quiet_ttls {pre : List Event} (h : ∀ e ∈ pre, e.isQuiet = true) :
    pre.filterMap Event.ttl? = [] := by
  rw [List.filterMap_eq_nil_iff]
  intro e he
  exact quiet_not_set (h e he)

theorem quiet_count {pre : List Event} (h : ∀ e ∈ pre, e.isQuiet = true)
    (p : Event → Bool) (hp : ∀ e, e.isQuiet = true → p e = false) :
    pre.countP p = 0 := by
  rw [List.countP_eq_zero]
  intro e he
  simp [hp e (h e he)]

theorem prelude_quiet (e : Event) (h : e.isPrelude = true) : e.isQuiet = true := by
  cases e <;> simp_all [Event.isQuiet, Event.isPrelude]

theorem loadCacheOptions_prelude (env : Env) (state : Value) :
    ∀ (keys : List Str) (acc : List Value),
      ∀ e ∈ (loadCacheOptions env state keys acc).1, e.isPrelude = true := by
  intro keys
  induction keys with
  | nil => intro acc e he; simp [loadCacheOptions] at he
  | cons key rest ih =>
    intro acc e he
    unfold loadCacheOptions at he
    cases hv : env.LoadValue key state with
    | error err =>
      rw [hv] at he
      simp at he
      subst he
      rfl
    | ok value =>
      rw [hv] at he
      simp only [List.mem_cons] at he
      rcases he with he | he
      · subst he; rfl
      · exact ih _ e he

theorem HandleRoutes_of_bound {env : Env} {request : Request} {route : Route}
    (h : Bound env request route) :
    ∃ pre, (∀ e ∈ pre, e.isPrelude = true) ∧ pre.filterMap Event.loadState? = [] ∧
      HandleRoutes env request = pre ++ cacheLookup env (boundRequest env request route) route
        (env.modifyRequest route request).token (env.modifyRequest route request).claims := by
  obtain ⟨host, hh, hr⟩ := h.selected
  refine ⟨[.selectRoute host request.Method request.URL.Path, .modifyRequest route request,
    .logDebug, .selectTarget route (-1)], ?_, rfl, ?_⟩
  · intro e he
    simp at he
    rcases he with he | he | he | he <;> subst he <;> rfl
  · simp [HandleRoutes, hh, hr, h.accepted, h.targeted, boundRequest]

theorem HandleRoutes_of_looked {env : Env} {request : Request} {route : Route}
    {cacheOptions : List Value} (h : Looked env request route cacheOptions) :
    ∃ pre, (∀ e ∈ pre, e.isPrelude = true) ∧
      HandleRoutes env request = pre ++
        match (env.GetIngressRoute route.ID cacheOptions).err with
        | some err => [.sendErrorResponse 400 err]
        | none =>
          if (env.GetIngressRoute route.ID cacheOptions).isCacheHit = true then
            match (env.GetIngressRoute route.ID cacheOptions).result with
            | none => [.panicked]
            | some result =>
              result.Headers.map (fun kv => Event.setHeader kv.1 kv.2)
                ++ [.writeHeader 200, .write result.Body, .logDebug]
          else upstream env (boundRequest env request route) route
            (env.modifyRequest route request).token (env.modifyRequest route request).claims
            (env.GetIngressRoute route.ID cacheOptions).key := by
  obtain ⟨pre, hq, -, hpre⟩ := HandleRoutes_of_bound h.bound
  have hp : loadCacheOptions env
      (requestState env (boundRequest env request route)
        (env.modifyRequest route request).token (env.modifyRequest route request).claims)
      route.CacheOptions [] = ((loadCacheOptions env
      (requestState env (boundRequest env request route)
        (env.modifyRequest route request).token (env.modifyRequest route request).claims)
      route.CacheOptions []).1, .ok cacheOptions) := Prod.ext rfl h.evaluated
  refine ⟨pre ++ (loadCacheOptions env
      (requestState env (boundRequest env request route)
        (env.modifyRequest route request).token (env.modifyRequest route request).claims)
      route.CacheOptions []).1 ++ [.getIngressRoute route.ID cacheOptions], ?_, ?_⟩
  · intro e he
    simp only [List.mem_append, List.mem_singleton] at he
    rcases he with (he | he) | he
    · exact hq e he
    · exact loadCacheOptions_prelude _ _ _ _ e he
    · subst he; rfl
  · rw [hpre]
    unfold cacheLookup
    rw [if_pos ⟨h.cacheable, h.isGet⟩, hp]
    simp

theorem HandleRoutes_of_missed {env : Env} {request : Request} {route : Route}
    {redisKey : Str} {response : Response} (h : Missed env request route redisKey response) :
    ∃ pre, (∀ e ∈ pre, e.isQuiet = true) ∧
      HandleRoutes env request
        = pre ++ storeAndEmit env (boundRequest env request route) route redisKey response := by
  obtain ⟨cacheOptions, hl, herr, hhit, hkey⟩ := h.looked
  obtain ⟨fresh, hdo, hmod⟩ := h.answered
  obtain ⟨pre, hq, hpre⟩ := HandleRoutes_of_looked hl
  refine ⟨pre ++ [.httpDo (boundRequest env request route), .modifyResponse fresh], ?_, ?_⟩
  · intro e he
    simp only [List.mem_append, List.mem_cons, List.mem_singleton, List.not_mem_nil,
      or_false] at he
    rcases he with he | he | he
    · exact prelude_quiet e (hq e he)
    · subst he; rfl
    · subst he; rfl
  · rw [hpre, herr, hhit, hkey]
    simp [upstream, hdo, hmod]

theorem exEnv_bound (cc : Str) : Bound (exEnv cc) exRequest exRoute where
  selected := ⟨"example.com".toList, rfl, rfl⟩
  accepted := rfl
  targeted := rfl

theorem exEnv_looked (cc : Str) :
    Looked (exEnv cc) exRequest exRoute [.str "http://svc:8080/api/items?x=1".toList] where
  bound := exEnv_bound cc
  cacheable := rfl
  isGet := rfl
  evaluated := rfl

theorem exEnv_missed (cc : Str) :
    Missed (exEnv cc) exRequest exRoute "r1".toList (exResponse cc) where
  looked := ⟨_, exEnv_looked cc, rfl, rfl, rfl⟩
  answered := ⟨exResponse cc, rfl, rfl⟩

/-! ## The cache-store decision -/

theorem mem_logIfError {o : Option Str} {e : Event} (h : e ∈ logIfError o) :
    ∃ m, e = .logError m := by
  cases o with
  | none => simp [logIfError] at h
  | some err => exact ⟨err, by simpa [logIfError] using h⟩

theorem logIfError_ttls (o : Option Str) : (logIfError o).filterMap Event.ttl? = [] := by
  cases o <;> rfl

theorem logIfError_no_panic (o : Option Str) : (logIfError o).countP Event.isPanic = 0 := by
  cases o <;> rfl

theorem scanCacheControl_empty : scanCacheControl (Split [] ',') = some [] := by decide

theorem writeStatus_valid {status : Nat} (h : 100 ≤ status ∧ status ≤ 999)
    (rest : List Event) : writeStatus status rest = Event.writeHeader status :: rest := by
  rw [writeStatus, if_pos h]

theorem writeStatus_invalid {status : Nat} (h : ¬ (100 ≤ status ∧ status ≤ 999))
    (rest : List Event) : writeStatus status rest = [Event.panicked] := by
  rw [writeStatus, if_neg h]

theorem mem_writeStatus {status : Nat} {rest : List Event} {e : Event}
    (h : e ∈ writeStatus status rest) :
    e = .writeHeader status ∨ e ∈ rest ∨ e = .panicked := by
  unfold writeStatus at h
  split_ifs at h
  · rcases List.mem_cons.mp h with h | h
    · exact Or.inl h
    · exact Or.inr (Or.inl h)
  · exact Or.inr (Or.inr (List.mem_singleton.mp h))

/-- The kinds of event an emission is made of. -/
theorem mem_emitResponse {response : Response} {e : Event} (h : e ∈ emitResponse response) :
    (∃ k v, e = .setHeader k v) ∨ e = .writeHeader response.StatusCode
      ∨ e = .write response.Body.data ∨ (∃ m, e = .logError m) ∨ e = .logDebug
      ∨ e = .panicked := by
  unfold emitResponse at h
  rcases List.mem_append.mp h with h | h
  · obtain ⟨kv, -, rfl⟩ := List.mem_map.mp h
    exact Or.inl ⟨_, _, rfl⟩
  · rcases mem_writeStatus h with h | h | h
    · exact Or.inr (Or.inl h)
    · simp only [List.mem_cons, List.mem_append, List.not_mem_nil, or_false] at h
      rcases h with h | h | h
      · exact Or.inr (Or.inr (Or.inl h))
      · exact Or.inr (Or.inr (Or.inr (Or.inl (mem_logIfError h))))
      · exact Or.inr (Or.inr (Or.inr (Or.inr (Or.inl h))))
    · exact Or.inr (Or.inr (Or.inr (Or.inr (Or.inr h))))

theorem emitResponse_valid {response : Response}
    (h : 100 ≤ response.StatusCode ∧ response.StatusCode ≤ 999) :
    emitResponse response
      = response.Header.map (fun kv => Event.setHeader kv.1 kv.2)
        ++ Event.writeHeader response.StatusCode ::
          (Event.write response.Body.data ::
            (logIfError response.Body.err ++ [Event.logDebug])) := by
  rw [emitResponse, writeStatus_valid h]

theorem emitResponse_ttls (response : Response) :
    (emitResponse response).filterMap Event.ttl? = [] := by
  rw [List.filterMap_eq_nil_iff]
  intro e he
  rcases mem_emitResponse he with ⟨k, v, rfl⟩ | rfl | rfl | ⟨m, rfl⟩ | rfl | rfl <;> rfl

theorem emitResponse_no_panic (response : Response)
    (h : 100 ≤ response.StatusCode ∧ response.StatusCode ≤ 999) :
    (emitResponse response).countP Event.isPanic = 0 := by
  rw [List.countP_eq_zero, emitResponse_valid h]
  intro e he
  simp only [List.mem_append, List.mem_map, List.mem_cons, List.not_mem_nil, or_false] at he
  rcases he with ⟨kv, _, rfl⟩ | rfl | rfl | he | rfl
  · simp [Event.isPanic]
  · simp [Event.isPanic]
  · simp [Event.isPanic]
  · obtain ⟨m, rfl⟩ := mem_logIfError he
    simp [Event.isPanic]
  · simp [Event.isPanic]

/-- The events of the store branch (lines 137-147) for the TTL text `cacheTime`. -/
theorem storeAndEmit_store {env : Env} {request : Request} {route : Route} {redisKey : Str}
    {response : Response} {cacheTime : Str}
    (hc : route.IsRouteCacheable = true) (hk : redisKey ≠ [])
    (hg : request.Method = "GET".toList)
    (hscan : scanCacheControl (Split (cacheControl response) ',') = some cacheTime)
    (hne : cacheTime ≠ []) :
    storeAndEmit env request route redisKey response =
      storeEvents env redisKey response cacheTime
        ++ emitResponse (rewrapped response) := by
  have hv : cacheControl response ≠ [] := by
    intro h0
    rw [h0, scanCacheControl_empty] at hscan
    exact hne (Option.some.inj hscan).symm
  unfold cacheControl at hv hscan
  unfold storeAndEmit cacheStore
  simp only [hscan]
  rw [if_pos ⟨hv, hc, hk, hg⟩, if_pos hne]

/-- When no TTL text is selected the decision performs nothing and the response is
emitted as it is. -/
theorem storeAndEmit_skip {env : Env} {request : Request} {route : Route} {redisKey : Str}
    {response : Response}
    (hscan : scanCacheControl (Split (cacheControl response) ',') = some []) :
    storeAndEmit env request route redisKey response = emitResponse response := by
  unfold cacheControl at hscan
  unfold storeAndEmit cacheStore
  simp only [hscan]
  rw [if_neg (by simp : ¬ ([] : Str) ≠ []), ite_self]
  simp

theorem Atoi_syntax_zero (s : Str) (h : (Atoi s).2 = some .ErrSyntax) : (Atoi s).1 = 0 := by
  unfold Atoi ParseInt at *
  split at h
  · rfl
  · simp only at h ⊢
    split at h
    · rfl
    · split_ifs at h ⊢ <;> simp_all

theorem storeEvents_ttls (env : Env) (redisKey : Str) (response : Response)
    (cacheTime : Str) :
    (storeEvents env redisKey response cacheTime).filterMap Event.ttl?
      = [(Atoi cacheTime).1] := by
  simp [storeEvents, List.filterMap_append, logIfError_ttls, Event.ttl?]

theorem storeEvents_no_panic (env : Env) (redisKey : Str) (response : Response)
    (cacheTime : Str) :
    (storeEvents env redisKey response cacheTime).countP Event.isPanic = 0 := by
  simp [storeEvents, List.countP_append, List.countP_cons, logIfError_no_panic, Event.isPanic]

theorem storeAndEmit_store_ttls {env : Env} {request : Request} {route : Route}
    {redisKey : Str} {response : Response} {cacheTime : Str}
    (hc : route.IsRouteCacheable = true) (hk : redisKey ≠ [])
    (hg : request.Method = "GET".toList)
    (hscan : scanCacheControl (Split (cacheControl response) ',') = some cacheTime)
    (hne : cacheTime ≠ []) :
    (storeAndEmit env request route redisKey response).filterMap Event.ttl?
      = [(Atoi cacheTime).1] := by
  rw [storeAndEmit_store hc hk hg hscan hne, List.filterMap_append, emitResponse_ttls,
    storeEvents_ttls, List.append_nil]

theorem storeAndEmit_no_panic {env : Env} {request : Request} {route : Route}
    {redisKey : Str} {response : Response} {cacheTime : Str}
    (hscan : scanCacheControl (Split (cacheControl response) ',') = some cacheTime)
    (hvalid : 100 ≤ response.StatusCode ∧ response.StatusCode ≤ 999) :
    (storeAndEmit env request route redisKey response).countP Event.isPanic = 0 := by
  have hre : (emitResponse (rewrapped response)).countP Event.isPanic = 0 :=
    emitResponse_no_panic (rewrapped response) hvalid
  unfold cacheControl at hscan
  unfold storeAndEmit cacheStore
  simp only [hscan]
  split_ifs
  · simp only [List.countP_append, hre, storeEvents_no_panic]
  · simpa using emitResponse_no_panic response hvalid
  · simpa using emitResponse_no_panic response hvalid

theorem quiet_not_panic (e : Event) (h : e.isQuiet = true) : e.isPanic = false := by
  cases e <;> simp_all [Event.isQuiet, Event.isPanic]

theorem quiet_not_isSet (e : Event) (h : e.isQuiet = true) : e.isSet = false := by
  cases e <;> simp_all [Event.isQuiet, Event.isSet]

theorem prelude_no_status {pre : List Event} (h : ∀ e ∈ pre, e.isPrelude = true) :
    pre.filterMap Event.status? = [] := by
  rw [List.filterMap_eq_nil_iff]
  intro e he
  have := h e he
  cases e <;> simp_all [Event.isPrelude, Event.status?]

theorem prelude_not_httpDo (e : Event) (h : e.isPrelude = true) : e.isHttpDo = false := by
  cases e <;> simp_all [Event.isPrelude, Event.isHttpDo]

theorem prelude_count {pre : List Event} (h : ∀ e ∈ pre, e.isPrelude = true)
    (p : Event → Bool) (hp : ∀ e, e.isPrelude = true → p e = false) :
    pre.countP p = 0 := by
  rw [List.countP_eq_zero]
  intro e he
  simp [hp e (h e he)]

theorem exEnvLookupFails_looked :
    Looked exEnvLookupFails exRequest exRoute [.str "http://svc:8080/api/items?x=1".toList] where
  bound := { selected := ⟨"example.com".toList, rfl, rfl⟩, accepted := rfl, targeted := rfl }
  cacheable := rfl
  isGet := rfl
  evaluated := rfl

/-! ## C2 -/

/-- C2, the code at the failing input `public, no-cache, max-age=60`: the second
directive is `no-cache` once trimmed and comes before the `max-age` directive, yet the
scan, which compares with `no-cache` before trimming, walks past it, selects `60`, and
the run stores the response with TTL 60. -/
theorem C2_untrimmed_no_cache_is_missed :
    (Split "public, no-cache, max-age=60".toList ',').map TrimSpace
        = ["public".toList, "no-cache".toList, "max-age=60".toList]
      ∧ scanCacheControl (Split "public, no-cache, max-age=60".toList ',') = some "60".toList
      ∧ (HandleRoutes (exEnv "public, no-cache, max-age=60".toList) exRequest).filterMap
          Event.ttl? = [60] := by
  decide

/-! ## C3 -/

/-- C3, counterexample: in the example deployment with a failing cache lookup the only
status written is 400, which is not in the 500 class. -/
theorem C3_counterexample_lookup_error_is_400 :
    (exEnvLookupFails.GetIngressRoute exRoute.ID
        [.str "http://svc:8080/api/items?x=1".toList]).err = some "connection refused".toList
      ∧ (HandleRoutes exEnvLookupFails exRequest).filterMap Event.status? = [400]
      ∧ ¬ (500 ≤ 400 ∧ 400 < 600) := by
  decide

/-- C3, amended: for every cacheable GET request whose cache-key expressions all
evaluate, when `GetIngressRoute` returns an error the handler hands that error to
`SendErrorResponse` with status 400 (`http.StatusBadRequest`); this is the only status
it writes and the last thing it does, and the upstream target is never contacted. -/
theorem C3_lookup_error_answers_400 {env : Env} {request : Request} {route : Route}
    {cacheOptions : List Value} {err : Str}
    (h : Looked env request route cacheOptions)
    (herr : (env.GetIngressRoute route.ID cacheOptions).err = some err) :
    (HandleRoutes env request).filterMap Event.status? = [400]
      ∧ (∃ pre, HandleRoutes env request = pre ++ [.sendErrorResponse 400 err])
      ∧ (HandleRoutes env request).countP Event.isHttpDo = 0 := by
  obtain ⟨pre, hq, hpre⟩ := HandleRoutes_of_looked h
  rw [herr] at hpre
  refine ⟨?_, ⟨pre, hpre⟩, ?_⟩
  · rw [hpre, List.filterMap_append, prelude_no_status hq]
    rfl
  · rw [hpre, List.countP_append, prelude_count hq _ prelude_not_httpDo]
    rfl

/-- C3, witness: the amended statement in the example deployment whose lookup fails. -/
theorem C3_lookup_error_answers_400_witness :
    (HandleRoutes exEnvLookupFails exRequest).filterMap Event.status? = [400]
      ∧ (HandleRoutes exEnvLookupFails exRequest).countP Event.isHttpDo = 0 :=
  ⟨(C3_lookup_error_answers_400 exEnvLookupFails_looked rfl).1,
    (C3_lookup_error_answers_400 exEnvLookupFails_looked rfl).2.2⟩

/-! ## Events of the stages -/

theorem mem_loadCacheOptions (env : Env) (state : Value) :
    ∀ (keys : List Str) (acc : List Value),
      ∀ e ∈ (loadCacheOptions env state keys acc).1, ∃ key, e = .loadValue key state := by
  intro keys
  induction keys with
  | nil => intro acc e he; simp [loadCacheOptions] at he
  | cons key rest ih =>
    intro acc e he
    unfold loadCacheOptions at he
    cases hv : env.LoadValue key state with
    | error err =>
      rw [hv] at he
      simp at he
      exact ⟨key, he⟩
    | ok value =>
      rw [hv] at he
      simp only [List.mem_cons] at he
      rcases he with he | he
      · exact ⟨key, he⟩
      · exact ih _ e he

theorem emitResponse_steps (response : Response) :
    ∀ e ∈ emitResponse response, e.isUpstreamStep = true := by
  intro e he
  rcases mem_emitResponse he with ⟨k, v, rfl⟩ | rfl | rfl | ⟨m, rfl⟩ | rfl | rfl <;> rfl

theorem storeEvents_steps (env : Env) (redisKey : Str) (response : Response)
    (cacheTime : Str) :
    ∀ e ∈ storeEvents env redisKey response cacheTime, e.isUpstreamStep = true := by
  intro e he
  simp only [storeEvents, List.mem_append, List.mem_cons] at he
  rcases he with (he | rfl | he) | rfl | he
  · obtain ⟨m, rfl⟩ := mem_logIfError he
    rfl
  · rfl
  · obtain ⟨m, rfl⟩ := mem_logIfError he
    rfl
  · rfl
  · obtain ⟨m, rfl⟩ := mem_logIfError he
    rfl

/-- The two ways the cache-store decision can end without a panic: nothing done, or
the store branch taken for a non-empty TTL text selected by the scan. -/
theorem cacheStore_some {env : Env} {request : Request} {route : Route} {redisKey : Str}
    {response : Response} {r : List Event × Response}
    (h : cacheStore env request route redisKey response = some r) :
    r = ([], response) ∨
      ∃ cacheTime, cacheTime ≠ []
        ∧ scanCacheControl (Split (cacheControl response) ',') = some cacheTime
        ∧ (cacheControl response ≠ [] ∧ route.IsRouteCacheable = true ∧ redisKey ≠ []
            ∧ request.Method = "GET".toList)
        ∧ r = (storeEvents env redisKey response cacheTime, rewrapped response) := by
  unfold cacheStore at h
  simp only at h
  split_ifs at h with hc
  · cases hs : scanCacheControl (Split (Header.Get response.Header "Cache-Control".toList) ',')
      with
    | none => rw [hs] at h; simp at h
    | some cacheTime =>
      rw [hs] at h
      simp only at h
      split_ifs at h with hne
      · right
        exact ⟨cacheTime, hne, hs, hc, (Option.some.inj h).symm⟩
      · left
        exact (Option.some.inj h).symm
  · left
    exact (Option.some.inj h).symm

theorem storeAndEmit_steps (env : Env) (request : Request) (route : Route) (redisKey : Str)
    (response : Response) :
    ∀ e ∈ storeAndEmit env request route redisKey response, e.isUpstreamStep = true := by
  intro e he
  unfold storeAndEmit at he
  cases hcs : cacheStore env request route redisKey response with
  | none =>
    rw [hcs] at he
    simp at he
    subst he
    rfl
  | some r =>
    rw [hcs] at he
    simp only [List.mem_append] at he
    rcases cacheStore_some hcs with hr | ⟨cacheTime, -, -, -, hr⟩
    · subst hr
      rcases he with he | he
      · simp at he
      · exact emitResponse_steps _ e he
    · subst hr
      rcases he with he | he
      · exact storeEvents_steps _ _ _ _ e he
      · exact emitResponse_steps _ e he

theorem upstream_steps (env : Env) (request : Request) (route : Route) (token : Str)
    (claims : Value) (redisKey : Str) :
    ∀ e ∈ upstream env request route token claims redisKey, e.isUpstreamStep = true := by
  intro e he
  unfold upstream at he
  rw [List.mem_cons] at he
  rcases he with he | he
  · subst he; rfl
  · cases hdo : env.Do request with
    | error err =>
      rw [hdo] at he
      simp at he
      rcases he with he | he | he <;> subst he <;> rfl
    | ok fresh =>
      rw [hdo] at he
      simp only [List.mem_cons] at he
      rcases he with he | he
      · subst he; rfl
      · cases hm : env.modifyResponse fresh route token claims with
        | error err =>
          rw [hm] at he
          simp at he
          rcases he with he | he <;> subst he <;> rfl
        | ok response =>
          rw [hm] at he
          exact storeAndEmit_steps _ _ _ _ _ e he

theorem step_not_load (e : Event) (h : e.isUpstreamStep = true) : e.loadState? = none := by
  cases e <;> simp_all [Event.isUpstreamStep, Event.loadState?]

/-- Every evaluator call of the lookup stage is given the state built from the request
as `setRequest` left it. -/
theorem cacheLookup_loadState (env : Env) (request : Request) (route : Route) (token : Str)
    (claims : Value) :
    ∀ e ∈ cacheLookup env request route token claims, ∀ state,
      e.loadState? = some state → state = requestState env request token claims := by
  intro e he state hst
  have hup : ∀ redisKey, e ∈ upstream env request route token claims redisKey → False := by
    intro redisKey hmem
    rw [step_not_load e (upstream_steps _ _ _ _ _ _ e hmem)] at hst
    cases hst
  have hload : e ∈ (loadCacheOptions env (requestState env request token claims)
      route.CacheOptions []).1 → state = requestState env request token claims := by
    intro hmem
    obtain ⟨key, rfl⟩ := mem_loadCacheOptions _ _ _ _ e hmem
    simpa [Event.loadState?] using hst.symm
  unfold cacheLookup at he
  split_ifs at he with hc
  · rcases hp : loadCacheOptions env (requestState env request token claims)
      route.CacheOptions [] with ⟨evs, res⟩
    rw [hp] at he hload
    cases res with
    | error err =>
      simp only [List.mem_append, List.mem_singleton] at he
      rcases he with he | he
      · exact hload he
      · subst he; cases hst
    | ok cacheOptionsArray =>
      simp only [List.mem_append, List.mem_cons] at he
      rcases he with he | he | he
      · exact hload he
      · subst he; cases hst
      · revert he
        split
        · intro he
          simp at he
          subst he; cases hst
        · split_ifs
          · split
            · intro he
              simp at he
              subst he; cases hst
            · intro he
              simp only [List.mem_append, List.mem_map, List.mem_cons, List.mem_singleton,
                List.not_mem_nil, or_false] at he
              rcases he with ⟨kv, _, rfl⟩ | rfl | rfl | rfl <;> cases hst
          · intro he
            exact (hup _ he).elim
  · exact (hup _ he).elim

/-! ## C4 -/

theorem boundRequest_URL {env : Env} {request : Request} {route : Route} {target : Target}
    (ht : env.SelectTarget route (-1) = .ok target) :
    (boundRequest env request route).URL
      = { (env.modifyRequest route request).request.URL with
          Scheme := if target.Scheme = [] then "http".toList else target.Scheme
          Host := hostPort target.Host target.Port
          Path := rewriteURL request.URL.Path route } := by
  simp [boundRequest, setRequest, ht]

theorem urlEntry_requestState (env : Env) (request : Request) (token : Str)
    (claims : Value) :
    urlEntry? (requestState env request token claims) = some (env.URLString request.URL) := by
  simp [urlEntry?, requestState, Value.entry?, List.lookup, Value.str?]

/-- C4, counterexample: the example request arrives with URL `/api/items?x=1`; the
`url` entry handed to the evaluator is `http://svc:8080/api/items?x=1`, the URL after
`setRequest`, and with another target it is `https://backup:9090/api/items?x=1`. -/
theorem C4_counterexample_url_entry_follows_target :
    (exEnv []).URLString exRequest.URL = "/api/items?x=1".toList
      ∧ (HandleRoutes (exEnv []) exRequest).filterMap (fun e => e.loadState?.bind urlEntry?)
          = ["http://svc:8080/api/items?x=1".toList]
      ∧ (HandleRoutes exEnvOtherTarget exRequest).filterMap
          (fun e => e.loadState?.bind urlEntry?)
          = ["https://backup:9090/api/items?x=1".toList] := by
  decide

/-- C4, amended: in `HandleRoutes`, the `url` entry of the state passed to every
cache-key expression evaluation is the string of the request URL as `setRequest` left
it: the URL that `modifyRequest` returned, with the scheme of the chosen target
(`http` when the target has none), host `target.Host:target.Port` and the rewritten
path. It therefore varies with the chosen target and with the path rewrite. -/
theorem C4_url_entry_is_outbound_url {env : Env} {request : Request} {route : Route}
    {target : Target} (h : Bound env request route)
    (ht : env.SelectTarget route (-1) = .ok target) :
    (∀ state ∈ (HandleRoutes env request).filterMap Event.loadState?,
        urlEntry? state = some (env.URLString (boundRequest env request route).URL))
      ∧ (boundRequest env request route).URL.Scheme
          = (if target.Scheme = [] then "http".toList else target.Scheme)
      ∧ (boundRequest env request route).URL.Host = hostPort target.Host target.Port
      ∧ (boundRequest env request route).URL.Path = rewriteURL request.URL.Path route
      ∧ (boundRequest env request route).URL.RawQuery
          = (env.modifyRequest route request).request.URL.RawQuery := by
  refine ⟨?_, ?_⟩
  · intro state hstate
    obtain ⟨pre, -, hnone, hpre⟩ := HandleRoutes_of_bound h
    rw [hpre, List.filterMap_append, hnone, List.nil_append, List.mem_filterMap] at hstate
    obtain ⟨e, he, hst⟩ := hstate
    rw [cacheLookup_loadState _ _ _ _ _ e he state hst, urlEntry_requestState]
  · rw [boundRequest_URL ht]
    exact ⟨rfl, rfl, rfl, rfl⟩

/-- C4, witness: the amended statement in the example deployment, whose single
evaluator call sees `http://svc:8080/api/items?x=1`. -/
theorem C4_url_entry_is_outbound_url_witness :
    (HandleRoutes (exEnv []) exRequest).filterMap (fun e => e.loadState?.bind urlEntry?)
        = ["http://svc:8080/api/items?x=1".toList]
      ∧ (boundRequest (exEnv []) exRequest exRoute).URL.Host = hostPort exTarget.Host exTarget.Port
      ∧ ∀ state ∈ (HandleRoutes (exEnv []) exRequest).filterMap Event.loadState?,
          urlEntry? state
            = some ((exEnv []).URLString (boundRequest (exEnv []) exRequest exRoute).URL) :=
  have hw := C4_url_entry_is_outbound_url (exEnv_bound [])
    (rfl : (exEnv []).SelectTarget exRoute (-1) = .ok exTarget)
  ⟨by decide, hw.2.2.1, hw.1⟩

/-! ## C5 -/

theorem TrimPrefix_of_not_HasPrefix {s pre : Str} (h : HasPrefix s pre = false) :
    TrimPrefix s pre = s := by
  simp [TrimPrefix, h]

/-- C5, counterexample: `/other` does not start with the source prefix `/api`, and
the route has the rewrite prefix `/v2`; `rewriteURL` returns `/v2/other`. -/
theorem C5_counterexample_rewrite_prepends :
    HasPrefix "/other".toList exRewriteRoute.Source.URL = false
      ∧ rewriteURL "/other".toList exRewriteRoute = "/v2/other".toList
      ∧ rewriteURL "/other".toList exRewriteRoute ≠ "/other".toList := by
  decide

/-- C5, amended: for every path and route such that the path does not start with the
route's source prefix, `rewriteURL(path, route)` is the route's rewrite prefix followed
by the whole path; it equals the path exactly when the route has no rewrite prefix. -/
theorem C5_rewriteURL_without_source_prefix (path : Str) (route : Route)
    (h : HasPrefix path route.Source.URL = false) :
    rewriteURL path route = route.Source.RewriteURL ++ path
      ∧ (rewriteURL path route = path ↔ route.Source.RewriteURL = []) := by
  have h1 : rewriteURL path route = route.Source.RewriteURL ++ path := by
    unfold rewriteURL
    split_ifs with hr
    · rw [TrimPrefix_of_not_HasPrefix h]
    · rw [not_not.mp hr, List.nil_append]
  refine ⟨h1, ?_⟩
  rw [h1]
  constructor
  · intro heq
    have hlen := congrArg List.length heq
    rw [List.length_append] at hlen
    exact List.length_eq_zero.mp (by omega)
  · intro heq
    rw [heq, List.nil_append]

/-- C5, witness: the amended statement at `/other` and the route rewriting `/api` to
`/v2`. -/
theorem C5_rewriteURL_without_source_prefix_witness :
    rewriteURL "/other".toList exRewriteRoute
        = exRewriteRoute.Source.RewriteURL ++ "/other".toList
      ∧ (rewriteURL "/other".toList exRewriteRoute = "/other".toList
          ↔ exRewriteRoute.Source.RewriteURL = []) :=
  C5_rewriteURL_without_source_prefix "/other".toList exRewriteRoute (by decide)

/-! ## C6 -/

theorem writerHeader_append (k : Str) (l₁ l₂ : List Event) :
    writerHeader k (l₁ ++ l₂) = (writerHeader k l₂).or (writerHeader k l₁) := by
  induction l₁ with
  | nil => simp [writerHeader, Option.or_none]
  | cons e rest ih => rw [List.cons_append, writerHeader, ih, writerHeader, Option.or_assoc]

theorem writerHeader_headers_absent (k : Str) (H : Header) (hk : k ∉ H.map Prod.fst) :
    writerHeader k (H.map (fun kv => Event.setHeader kv.1 kv.2)) = none := by
  induction H with
  | nil => rfl
  | cons kv rest ih =>
    simp only [List.map_cons, List.mem_cons, not_or] at hk
    rw [List.map_cons, writerHeader, ih hk.2, Option.none_or, Event.headerWrite?,
      if_neg (fun h => hk.1 h.symm)]

theorem writerHeader_headers (H : Header) (hnodup : (H.map Prod.fst).Nodup) :
    ∀ kv ∈ H, writerHeader kv.1 (H.map (fun kv => Event.setHeader kv.1 kv.2)) = some kv.2 := by
  induction H with
  | nil => intro kv hkv; simp at hkv
  | cons kv₀ rest ih =>
    intro kv hkv
    rw [List.map_cons, List.nodup_cons] at hnodup
    rw [List.map_cons, writerHeader]
    rcases List.mem_cons.mp hkv with rfl | hmem
    · rw [writerHeader_headers_absent _ _ hnodup.1, Option.none_or, Event.headerWrite?,
        if_pos rfl]
    · rw [ih hnodup.2 kv hmem, Option.or_some]

theorem prelude_no_writerHeader (k : Str) {pre : List Event}
    (h : ∀ e ∈ pre, e.isPrelude = true) : writerHeader k pre = none := by
  induction pre with
  | nil => rfl
  | cons e rest ih =>
    rw [writerHeader, ih (fun e he => h e (List.mem_cons_of_mem _ he)), Option.none_or]
    have hp := h e (List.mem_cons_self _ _)
    clear h ih
    cases e <;> first | rfl | (simp [Event.isPrelude] at hp)

theorem prelude_no_body {pre : List Event} (h : ∀ e ∈ pre, e.isPrelude = true) :
    pre.filterMap Event.body? = [] := by
  rw [List.filterMap_eq_nil_iff]
  intro e he
  have := h e he
  cases e <;> simp_all [Event.isPrelude, Event.body?]

theorem prelude_not_modifyResponse (e : Event) (h : e.isPrelude = true) :
    e.isModifyResponse = false := by
  cases e <;> simp_all [Event.isPrelude, Event.isModifyResponse]

theorem prelude_not_isSet (e : Event) (h : e.isPrelude = true) : e.isSet = false := by
  cases e <;> simp_all [Event.isPrelude, Event.isSet]

theorem exEnvHit_looked :
    Looked exEnvHit exRequest exRoute [.str "http://svc:8080/api/items?x=1".toList] where
  bound := { selected := ⟨"example.com".toList, rfl, rfl⟩, accepted := rfl, targeted := rfl }
  cacheable := rfl
  isGet := rfl
  evaluated := rfl

/-- C6: for every cacheable GET request whose lookup reports a hit with entry (headers
`H`, body `B`), the handler performs, after the read-only calls that lead to the
lookup, exactly: one `writer.Header()[k] = v` per entry of `H`, `WriteHeader(200)`, the
copy of `B`, and a debug log line. So the only status written is 200, the writer's
header map holds every name of `H` with its stored values (`H` being a map, its names
are distinct), the only body written is `B`, and there is no upstream send, no
response mutation and no cache-store set. -/
theorem C6_cache_hit_fast_path {env : Env} {request : Request} {route : Route}
    {cacheOptions : List Value} {H : Header} {B : Str}
    (h : Looked env request route cacheOptions)
    (herr : (env.GetIngressRoute route.ID cacheOptions).err = none)
    (hhit : (env.GetIngressRoute route.ID cacheOptions).isCacheHit = true)
    (hres : (env.GetIngressRoute route.ID cacheOptions).result
      = some { Headers := H, Body := B })
    (hnodup : (H.map Prod.fst).Nodup) :
    (∃ pre, (∀ e ∈ pre, e.isPrelude = true) ∧
        HandleRoutes env request = pre ++ (H.map (fun kv => Event.setHeader kv.1 kv.2)
          ++ [.writeHeader 200, .write B, .logDebug]))
      ∧ (HandleRoutes env request).filterMap Event.status? = [200]
      ∧ (∀ kv ∈ H, writerHeader kv.1 (HandleRoutes env request) = some kv.2)
      ∧ (HandleRoutes env request).filterMap Event.body? = [B]
      ∧ (HandleRoutes env request).countP Event.isHttpDo = 0
      ∧ (HandleRoutes env request).countP Event.isModifyResponse = 0
      ∧ (HandleRoutes env request).countP Event.isSet = 0 := by
  obtain ⟨pre, hq, hpre⟩ := HandleRoutes_of_looked h
  rw [herr, hhit, hres] at hpre
  simp only [if_true] at hpre
  refine ⟨⟨pre, hq, hpre⟩, ?_, ?_, ?_, ?_, ?_, ?_⟩
  · rw [hpre, List.filterMap_append, prelude_no_status hq]
    simp [List.filterMap_append, List.filterMap_map, Event.status?]
  · intro kv hkv
    rw [hpre, ← List.append_assoc, writerHeader_append]
    have htail : writerHeader kv.1 [Event.writeHeader 200, Event.write B, Event.logDebug]
        = none := rfl
    rw [htail, Option.none_or, writerHeader_append, writerHeader_headers H hnodup kv hkv,
      Option.or_some]
  · rw [hpre, List.filterMap_append, prelude_no_body hq]
    simp [List.filterMap_append, List.filterMap_map, Event.body?]
  · rw [hpre, List.countP_append, prelude_count hq _ prelude_not_httpDo]
    simp [List.countP_append, List.countP_map, List.countP_cons, Event.isHttpDo,
      List.countP_eq_zero]
  · rw [hpre, List.countP_append, prelude_count hq _ prelude_not_modifyResponse]
    simp [List.countP_append, List.countP_map, List.countP_cons, Event.isModifyResponse,
      List.countP_eq_zero]
  · rw [hpre, List.countP_append, prelude_count hq _ prelude_not_isSet]
    simp [List.countP_append, List.countP_map, List.countP_cons, Event.isSet,
      List.countP_eq_zero]

/-- C6, witness: the statement in the example deployment whose store reports a hit
with two headers and the body `cached`. -/
theorem C6_cache_hit_fast_path_witness :
    (HandleRoutes exEnvHit exRequest).filterMap Event.status? = [200]
      ∧ writerHeader "X-Tag".toList (HandleRoutes exEnvHit exRequest)
          = some ["a".toList, "b".toList]
      ∧ (HandleRoutes exEnvHit exRequest).filterMap Event.body? = ["cached".toList]
      ∧ (HandleRoutes exEnvHit exRequest).countP Event.isHttpDo = 0 :=
  have hw := C6_cache_hit_fast_path exEnvHit_looked rfl rfl rfl (by decide)
  ⟨hw.2.1, hw.2.2.1 ("X-Tag".toList, ["a".toList, "b".toList]) (by decide), hw.2.2.2.1,
    hw.2.2.2.2.1⟩

/-! ## Decimal text and `Atoi` -/

theorem digitChar_digit (d : Nat) (hd : d < 10) :
    digitValue (Nat.digitChar d) = some d ∧ Nat.digitChar d ≠ '=' ∧ Nat.digitChar d ≠ '-'
      ∧ Nat.digitChar d ≠ '+' := by
  interval_cases d <;> decide

theorem mem_toDigitsCore (fuel : Nat) :
    ∀ (n : Nat) (ds : List Char), ∀ c ∈ Nat.toDigitsCore 10 fuel n ds,
      c ∈ ds ∨ ∃ d, d < 10 ∧ c = Nat.digitChar d := by
  induction fuel with
  | zero => intro n ds c hc; left; simpa [Nat.toDigitsCore] using hc
  | succ fuel ih =>
    intro n ds c hc
    unfold Nat.toDigitsCore at hc
    simp only at hc
    split_ifs at hc with h0
    · rcases List.mem_cons.mp hc with rfl | hmem
      · exact Or.inr ⟨n % 10, Nat.mod_lt _ (by norm_num), rfl⟩
      · exact Or.inl hmem
    · rcases ih _ _ c hc with hmem | hd
      · rcases List.mem_cons.mp hmem with rfl | hmem
        · exact Or.inr ⟨n % 10, Nat.mod_lt _ (by norm_num), rfl⟩
        · exact Or.inl hmem
      · exact Or.inr hd

theorem toDigitsCore_ne_nil (fuel : Nat) :
    ∀ (n : Nat) (ds : List Char), ds ≠ [] → Nat.toDigitsCore 10 fuel n ds ≠ [] := by
  induction fuel with
  | zero => intro n ds h; simpa [Nat.toDigitsCore] using h
  | succ fuel ih =>
    intro n ds _
    unfold Nat.toDigitsCore
    simp only
    split_ifs
    · simp
    · exact ih _ _ (by simp)

theorem toDigits_ne_nil (n : Nat) : Nat.toDigits 10 n ≠ [] := by
  unfold Nat.toDigits Nat.toDigitsCore
  simp only
  split_ifs
  · simp
  · exact toDigitsCore_ne_nil _ _ _ (by simp)

/-- Reading the digits that `toDigitsCore` puts in front of `ds` takes the parse loop
from `acc` to `acc * 10 ^ k + n`, as long as that stays inside 64 bits. -/
theorem parseUintLoop_toDigitsCore (fuel : Nat) :
    ∀ (n : Nat) (ds : List Char), n < fuel → ∃ k, ∀ acc, acc * 10 ^ k + n < 2 ^ 64 →
      parseUintLoop acc (Nat.toDigitsCore 10 fuel n ds)
        = parseUintLoop (acc * 10 ^ k + n) ds := by
  induction fuel with
  | zero => intro n ds h; omega
  | succ fuel ih =>
    intro n ds hn
    unfold Nat.toDigitsCore
    simp only
    have hdv := (digitChar_digit (n % 10) (Nat.mod_lt _ (by norm_num))).1
    split_ifs with h0
    · refine ⟨1, fun acc hacc => ?_⟩
      have hmod : n % 10 = n := Nat.mod_eq_of_lt (by omega)
      rw [parseUintLoop, hdv]
      simp only
      rw [if_neg (by omega)]
      congr 1
      omega
    · obtain ⟨k, hk⟩ := ih (n / 10) (Nat.digitChar (n % 10) :: ds) (by omega)
      refine ⟨k + 1, fun acc hacc => ?_⟩
      have hsplit : (acc * 10 ^ k + n / 10) * 10 + n % 10 = acc * 10 ^ (k + 1) + n := by
        rw [pow_succ]
        have := Nat.div_add_mod n 10
        nlinarith
      rw [hk acc (by omega), parseUintLoop, hdv]
      simp only
      rw [if_neg (by omega), hsplit]

theorem parseUintLoop_repr (n : Nat) (hn : n < 2 ^ 64) :
    parseUintLoop 0 (Nat.toDigits 10 n) = (n, none) := by
  obtain ⟨k, hk⟩ := parseUintLoop_toDigitsCore (n + 1) n [] (by omega)
  have := hk 0 (by simpa using hn)
  simpa [Nat.toDigits, parseUintLoop] using this

theorem mem_repr_digit (n : Nat) :
    ∀ c ∈ (Nat.repr n).toList, ∃ d, d < 10 ∧ c = Nat.digitChar d := by
  intro c hc
  have hc' : c ∈ Nat.toDigitsCore 10 (n + 1) n [] := hc
  rcases mem_toDigitsCore _ _ _ c hc' with h | h
  · simp at h
  · exact h

/-- `Atoi` reads back the decimal text of every natural number below `2 ^ 63`. -/
theorem Atoi_repr (n : Nat) (hn : n < 2 ^ 63) : Atoi (Nat.repr n).toList = ((n : Int), none) := by
  have hlist : (Nat.repr n).toList = Nat.toDigits 10 n := rfl
  have hne := toDigits_ne_nil n
  have hparse := parseUintLoop_repr n (by omega)
  have hdig := mem_repr_digit n
  rw [hlist] at hdig ⊢
  cases hs : Nat.toDigits 10 n with
  | nil => exact absurd hs hne
  | cons c cs =>
    rw [hs] at hdig hparse
    obtain ⟨d, hd, rfl⟩ := hdig c (List.mem_cons_self _ _)
    obtain ⟨-, -, hminus, hplus⟩ := digitChar_digit d hd
    simp only [Atoi, ParseInt, hminus, hplus, or_self, if_false, ParseUint, hparse,
      decide_False]
    have h63 : n < 9223372036854775808 := by
      have : (2 : Nat) ^ 63 = 9223372036854775808 := by norm_num
      omega
    simp [h63]

/-! ## The directive scan -/

theorem Split_of_not_mem (sep : Char) : ∀ s : Str, sep ∉ s → Split s sep = [s] := by
  intro s
  induction s with
  | nil => intro _; rfl
  | cons c cs ih =>
    intro h
    simp only [List.mem_cons, not_or] at h
    rw [Split, if_neg (fun hc => h.1 hc.symm), ih h.2]

theorem Split_append_sep (sep : Char) (b : Str) :
    ∀ a : Str, sep ∉ a → Split (a ++ sep :: b) sep = a :: Split b sep := by
  intro a
  induction a with
  | nil => intro _; simp [Split]
  | cons c cs ih =>
    intro h
    simp only [List.mem_cons, not_or] at h
    rw [List.cons_append, Split, if_neg (fun hc => h.1 hc.symm), ih h.2]

theorem TrimSpace_no_cache : TrimSpace "no-cache".toList = "no-cache".toList := by decide

/-- When no piece is literally `no-cache`, the scan reads element 1 of the split on
`=` of the first trimmed piece that starts with `max-age` or `s-maxage`. -/
theorem scanCacheControl_find (d : Str) :
    ∀ parts : List Str, (∀ p ∈ parts, p ≠ "no-cache".toList) →
      (parts.map TrimSpace).find? isDuration = some d →
      scanCacheControl parts = (Split d '=')[1]? := by
  intro parts
  induction parts with
  | nil => intro _ h; simp at h
  | cons p rest ih =>
    intro hno hfind
    rw [List.map_cons, List.find?_cons] at hfind
    rw [scanCacheControl, if_neg (hno p (List.mem_cons_self _ _))]
    simp only
    cases hp : isDuration (TrimSpace p) with
    | true =>
      rw [hp] at hfind
      simp only [Option.some.injEq] at hfind
      subst hfind
      simp only [isDuration, Bool.or_eq_true] at hp
      by_cases h1 : HasPrefix (TrimSpace p) "max-age".toList = true
      · rw [if_pos h1]
      · rw [if_neg h1, if_pos (hp.resolve_left h1)]
    | false =>
      rw [hp] at hfind
      simp only [isDuration, Bool.or_eq_false_iff] at hp
      rw [if_neg (by rw [hp.1]; exact Bool.false_ne_true),
        if_neg (by rw [hp.2]; exact Bool.false_ne_true)]
      exact ih (fun q hq => hno q (List.mem_cons_of_mem _ hq)) hfind

/-- With no `no-cache` directive and a first duration directive of the form
`name=<decimal n>`, the scan selects the decimal text of `n`. -/
theorem scanCacheControl_decimal {values name : Str} {n : Nat}
    (hno : ∀ p ∈ Split values ',', TrimSpace p ≠ "no-cache".toList)
    (hfirst : ((Split values ',').map TrimSpace).find? isDuration
      = some (name ++ '=' :: (Nat.repr n).toList))
    (hname : '=' ∉ name) :
    scanCacheControl (Split values ',') = some (Nat.repr n).toList := by
  have hno' : ∀ p ∈ Split values ',', p ≠ "no-cache".toList := by
    intro p hp heq
    exact hno p hp (by rw [heq, TrimSpace_no_cache])
  have hdigits : '=' ∉ (Nat.repr n).toList := by
    intro hmem
    obtain ⟨d, hd, heq⟩ := mem_repr_digit n _ hmem
    exact (digitChar_digit d hd).2.1 heq.symm
  rw [scanCacheControl_find _ _ hno' hfirst, Split_append_sep _ _ _ hname,
    Split_of_not_mem _ _ hdigits]
  rfl

/-! ## C7 -/

/-- C7, counterexample: `Cache-Control: max-age=9223372036854775808` has no `no-cache`
directive and its first duration directive is `max-age=<n>` with `n = 2 ^ 63`, yet the
response is stored with TTL `2 ^ 63 - 1`: `Atoi` reports a range error next to the
largest `int`, and the store goes ahead with it. -/
theorem C7_counterexample_ttl_saturates :
    (Nat.repr (2 ^ 63)).toList = "9223372036854775808".toList
      ∧ (∀ p ∈ Split "max-age=9223372036854775808".toList ',',
          TrimSpace p ≠ "no-cache".toList)
      ∧ ((Split "max-age=9223372036854775808".toList ',').map TrimSpace).find? isDuration
          = some ("max-age".toList ++ '=' :: "9223372036854775808".toList)
      ∧ (HandleRoutes (exEnv "max-age=9223372036854775808".toList) exRequest).filterMap
          Event.ttl? = [2 ^ 63 - 1]
      ∧ (HandleRoutes (exEnv "max-age=9223372036854775808".toList) exRequest).filterMap
          Event.ttl? ≠ [2 ^ 63] := by
  refine ⟨by rfl, by decide, by decide, by decide, by decide⟩

/-- C7, amended: for every `Cache-Control` value with no `no-cache` directive whose
first directive, in header order and after trimming, that starts with `max-age` or
`s-maxage` has the form `<name>=<n>` (`<name>` free of `=`, `<n>` the decimal text of a
natural number `n < 2 ^ 63`), a cacheable GET miss with a non-empty key stores the
response, headers and body, under the key with TTL exactly `n`, in a single call. -/
theorem C7_duration_directive_gives_ttl {env : Env} {request : Request} {route : Route}
    {redisKey : Str} {response : Response} (name : Str) (n : Nat)
    (h : Missed env request route redisKey response) (hk : redisKey ≠ [])
    (hno : ∀ p ∈ Split (cacheControl response) ',', TrimSpace p ≠ "no-cache".toList)
    (hfirst : ((Split (cacheControl response) ',').map TrimSpace).find? isDuration
      = some (name ++ '=' :: (Nat.repr n).toList))
    (hname : '=' ∉ name) (hn : n < 2 ^ 63) :
    (HandleRoutes env request).filterMap Event.ttl? = [(n : Int)]
      ∧ Event.setIngressRouteKey redisKey (n : Int)
          { Headers := response.Header, Body := response.Body.data }
          ∈ HandleRoutes env request := by
  obtain ⟨pre, hq, hpre⟩ := HandleRoutes_of_missed h
  obtain ⟨cacheOptions, hl, -, -, -⟩ := h.looked
  have hscan := scanCacheControl_decimal hno hfirst hname
  have hne : (Nat.repr n).toList ≠ [] := toDigits_ne_nil n
  constructor
  · rw [hpre, List.filterMap_append, quiet_ttls hq, List.nil_append,
      storeAndEmit_store_ttls hl.cacheable hk hl.isGet hscan hne, Atoi_repr n hn]
  · rw [hpre, storeAndEmit_store hl.cacheable hk hl.isGet hscan hne]
    simp only [storeEvents, Atoi_repr n hn]
    simp

/-- C7, witness: the amended statement at `max-age=60`, at `s-maxage=120` and at
`s-maxage=120, max-age=60` in the example deployment: TTL 60, 120 and 120. -/
theorem C7_duration_directive_gives_ttl_witness :
    (HandleRoutes (exEnv "max-age=60".toList) exRequest).filterMap Event.ttl? = [60]
      ∧ (HandleRoutes (exEnv "s-maxage=120".toList) exRequest).filterMap Event.ttl? = [120]
      ∧ (HandleRoutes (exEnv "s-maxage=120, max-age=60".toList) exRequest).filterMap
          Event.ttl? = [120] :=
  ⟨(C7_duration_directive_gives_ttl "max-age".toList 60
      (exEnv_missed "max-age=60".toList) (by decide) (by decide) (by decide) (by decide)
      (by norm_num)).1,
    (C7_duration_directive_gives_ttl "s-maxage".toList 120
      (exEnv_missed "s-maxage=120".toList) (by decide) (by decide) (by decide) (by decide)
      (by norm_num)).1,
    (C7_duration_directive_gives_ttl "s-maxage".toList 120
      (exEnv_missed "s-maxage=120, max-age=60".toList) (by decide) (by decide) (by decide)
      (by decide) (by norm_num)).1⟩

/-! ## Where a set call comes from -/

theorem step_set_cases (e : Event) (h : e.isSet = true) :
    ∃ key ttl entry, e = .setIngressRouteKey key ttl entry := by
  cases e <;> simp_all [Event.isSet]

theorem emitResponse_no_set (response : Response) :
    ∀ e ∈ emitResponse response, e.isSet = false := by
  intro e he
  rcases mem_emitResponse he with ⟨k, v, rfl⟩ | rfl | rfl | ⟨m, rfl⟩ | rfl | rfl <;> rfl

theorem storeEvents_set (env : Env) (redisKey : Str) (response : Response)
    (cacheTime : Str) :
    ∀ e ∈ storeEvents env redisKey response cacheTime, e.isSet = true →
      e = .setIngressRouteKey redisKey (Atoi cacheTime).1
        { Headers := response.Header, Body := response.Body.data } := by
  intro e he hset
  simp only [storeEvents, List.mem_append, List.mem_cons] at he
  rcases he with (he | rfl | he) | rfl | he
  · obtain ⟨m, rfl⟩ := mem_logIfError he
    cases hset
  · cases hset
  · obtain ⟨m, rfl⟩ := mem_logIfError he
    cases hset
  · rfl
  · obtain ⟨m, rfl⟩ := mem_logIfError he
    cases hset

/-- A set call among the events of the upstream path is the one of the store branch:
the send and the post-processing succeeded, the four conditions of line 120 hold, and
the scan selected a non-empty TTL text whose `Atoi` value is the TTL. -/
theorem upstream_set_origin {env : Env} {request : Request} {route : Route} {token : Str}
    {claims : Value} {redisKey : Str} {e : Event}
    (he : e ∈ upstream env request route token claims redisKey) (hset : e.isSet = true) :
    ∃ fresh response cacheTime,
      env.Do request = .ok fresh
        ∧ env.modifyResponse fresh route token claims = .ok response
        ∧ (cacheControl response ≠ [] ∧ route.IsRouteCacheable = true ∧ redisKey ≠ []
            ∧ request.Method = "GET".toList)
        ∧ scanCacheControl (Split (cacheControl response) ',') = some cacheTime
        ∧ cacheTime ≠ []
        ∧ e = .setIngressRouteKey redisKey (Atoi cacheTime).1
            { Headers := response.Header, Body := response.Body.data } := by
  unfold upstream at he
  rw [List.mem_cons] at he
  rcases he with rfl | he
  · cases hset
  · cases hdo : env.Do request with
    | error err =>
      rw [hdo] at he
      simp at he
      rcases he with rfl | rfl | rfl <;> cases hset
    | ok fresh =>
      rw [hdo] at he
      simp only [List.mem_cons] at he
      rcases he with rfl | he
      · cases hset
      · cases hm : env.modifyResponse fresh route token claims with
        | error err =>
          rw [hm] at he
          simp at he
          rcases he with rfl | rfl <;> cases hset
        | ok response =>
          rw [hm] at he
          simp only at he
          unfold storeAndEmit at he
          cases hcs : cacheStore env request route redisKey response with
          | none =>
            rw [hcs] at he
            simp at he
            subst he
            cases hset
          | some r =>
            rw [hcs] at he
            simp only [List.mem_append] at he
            rcases cacheStore_some hcs with hr | ⟨cacheTime, hne, hscan, hcond, hr⟩
            · subst hr
              rcases he with he | he
              · simp at he
              · rw [emitResponse_no_set _ e he] at hset
                cases hset
            · subst hr
              rcases he with he | he
              · exact ⟨fresh, response, cacheTime, rfl, hm, hcond, hscan, hne,
                  storeEvents_set _ _ _ _ e he hset⟩
              · rw [emitResponse_no_set _ e he] at hset
                cases hset

theorem getHostAndURL_path {request : Request} {host url : Str}
    (h : getHostAndURL request = some (host, url)) : url = request.URL.Path := by
  unfold getHostAndURL at h
  split at h
  · cases h
  · simp only [Option.some.injEq, Prod.mk.injEq] at h
    exact h.2.symm

theorem cacheLookup_set_origin {env : Env} {request : Request} {route : Route}
    {token : Str} {claims : Value} {e : Event}
    (he : e ∈ cacheLookup env request route token claims) (hset : e.isSet = true) :
    ∃ cacheOptions, route.IsRouteCacheable = true ∧ request.Method = "GET".toList
      ∧ (loadCacheOptions env (requestState env request token claims)
          route.CacheOptions []).2 = .ok cacheOptions
      ∧ (env.GetIngressRoute route.ID cacheOptions).err = none
      ∧ (env.GetIngressRoute route.ID cacheOptions).isCacheHit = false
      ∧ e ∈ upstream env request route token claims
          (env.GetIngressRoute route.ID cacheOptions).key := by
  have hload : e ∉ (loadCacheOptions env (requestState env request token claims)
      route.CacheOptions []).1 := by
    intro hmem
    obtain ⟨key, rfl⟩ := mem_loadCacheOptions _ _ _ _ e hmem
    cases hset
  unfold cacheLookup at he
  split_ifs at he with hc
  · rcases hp : loadCacheOptions env (requestState env request token claims)
      route.CacheOptions [] with ⟨evs, res⟩
    rw [hp] at he hload
    cases res with
    | error err =>
      simp only [List.mem_append, List.mem_singleton] at he
      rcases he with he | rfl
      · exact (hload he).elim
      · cases hset
    | ok cacheOptionsArray =>
      simp only [List.mem_append, List.mem_cons] at he
      rcases he with he | rfl | he
      · exact (hload he).elim
      · cases hset
      · cases herr : (env.GetIngressRoute route.ID cacheOptionsArray).err with
        | some err =>
          rw [herr] at he
          simp at he
          subst he
          cases hset
        | none =>
          rw [herr] at he
          simp only at he
          cases hhit : (env.GetIngressRoute route.ID cacheOptionsArray).isCacheHit with
          | true =>
            rw [hhit] at he
            simp only [if_true] at he
            cases hres : (env.GetIngressRoute route.ID cacheOptionsArray).result with
            | none =>
              rw [hres] at he
              simp at he
              subst he
              cases hset
            | some result =>
              rw [hres] at he
              simp only [List.mem_append, List.mem_map, List.mem_cons, List.mem_singleton,
                List.not_mem_nil, or_false] at he
              rcases he with ⟨kv, _, rfl⟩ | rfl | rfl | rfl <;> cases hset
          | false =>
            rw [hhit] at he
            simp only [Bool.false_eq_true, if_false] at he
            exact ⟨cacheOptionsArray, hc.1, hc.2, rfl, herr, hhit, he⟩
  · obtain ⟨_, _, _, _, _, hcond, _⟩ := upstream_set_origin he hset
    exact absurd rfl hcond.2.2.1

theorem HandleRoutes_set_bound {env : Env} {request : Request} {e : Event}
    (he : e ∈ HandleRoutes env request) (hset : e.isSet = true) :
    ∃ route, Bound env request route
      ∧ e ∈ cacheLookup env (boundRequest env request route) route
          (env.modifyRequest route request).token (env.modifyRequest route request).claims := by
  unfold HandleRoutes at he
  cases hh : getHostAndURL request with
  | none =>
    rw [hh] at he
    simp at he
    subst he
    cases hset
  | some hu =>
    obtain ⟨host, url⟩ := hu
    have hurl := getHostAndURL_path hh
    subst hurl
    rw [hh] at he
    simp only [List.mem_cons] at he
    rcases he with rfl | he
    · cases hset
    · cases hr : env.selectRoute host request.Method request.URL.Path with
      | error err =>
        rw [hr] at he
        simp at he
        rcases he with rfl | rfl <;> cases hset
      | ok route =>
        rw [hr] at he
        simp only [List.mem_cons] at he
        rcases he with rfl | he
        · cases hset
        · cases hm : (env.modifyRequest route request).err with
          | some err =>
            rw [hm] at he
            rcases mem_writeStatus he with rfl | he | rfl
            · cases hset
            · simp at he
              subst he
              cases hset
            · cases hset
          | none =>
            rw [hm] at he
            simp only [List.mem_cons] at he
            rcases he with rfl | rfl | he
            · cases hset
            · cases hset
            · cases ht : (setRequest env (env.modifyRequest route request).request route
                  (rewriteURL request.URL.Path route)).2 with
              | some err =>
                rw [ht] at he
                simp at he
                rcases he with rfl | rfl | rfl <;> cases hset
              | none =>
                rw [ht] at he
                exact ⟨route, ⟨⟨host, hh, hr⟩, hm, ht⟩, he⟩

/-- Every set call of a run is the one of the store branch of a cacheable GET miss:
the run reaches the cache-store decision with a non-empty key and a non-empty
`Cache-Control`, the scan selected a non-empty TTL text, and the call carries the key,
the `Atoi` value of that text, and the response headers and body. -/
theorem HandleRoutes_set_origin {env : Env} {request : Request} {e : Event}
    (he : e ∈ HandleRoutes env request) (hset : e.isSet = true) :
    ∃ route redisKey response cacheTime,
      Missed env request route redisKey response
        ∧ redisKey ≠ [] ∧ cacheControl response ≠ []
        ∧ scanCacheControl (Split (cacheControl response) ',') = some cacheTime
        ∧ cacheTime ≠ []
        ∧ e = .setIngressRouteKey redisKey (Atoi cacheTime).1
            { Headers := response.Header, Body := response.Body.data } := by
  obtain ⟨route, hb, he⟩ := HandleRoutes_set_bound he hset
  obtain ⟨cacheOptions, hc, hg, hev, herr, hhit, he⟩ := cacheLookup_set_origin he hset
  obtain ⟨fresh, response, cacheTime, hdo, hmod, hcond, hscan, hne, heq⟩ :=
    upstream_set_origin he hset
  exact ⟨route, _, response, cacheTime,
    ⟨⟨cacheOptions, ⟨hb, hc, hg, hev⟩, herr, hhit, rfl⟩, ⟨fresh, hdo, hmod⟩⟩,
    hcond.2.2.1, hcond.1, hscan, hne, heq⟩

/-! ## C8 -/

theorem Atoi_range (s : Str) : -(2 : Int) ^ 63 ≤ (Atoi s).1 ∧ (Atoi s).1 < (2 : Int) ^ 63 := by
  unfold Atoi ParseInt
  split
  · norm_num
  · simp only
    split
    · norm_num
    · split_ifs with h1 h2 h3
      · norm_num
      · norm_num
      · simp only [not_and, not_lt] at h2
        have := h2 h3
        constructor <;> norm_num at this ⊢ <;> omega
      · simp only [not_and, not_le] at h1
        have := h1 (by simpa using h3)
        constructor <;> norm_num at this ⊢ <;> omega

theorem Atoi_nonneg (s : Str) (h : s.head? ≠ some '-') : 0 ≤ (Atoi s).1 := by
  unfold Atoi ParseInt
  split
  · norm_num
  · rename_i c cs
    have hc : c ≠ '-' := by simpa using h
    simp only [hc, decide_False]
    split
    · norm_num
    · split_ifs with h1 h2 h3
      · norm_num
      · exact absurd h2.1 not_false
      · exact h3.elim
      · exact Int.natCast_nonneg _


/-- C8, counterexample: for `Cache-Control: max-age=-5` the example run calls
`SetIngressRouteKey` with TTL `-5`, which is negative. -/
theorem C8_counterexample_negative_ttl :
    (HandleRoutes (exEnv "max-age=-5".toList) exRequest).filterMap Event.ttl? = [-5]
      ∧ ¬ ((0 : Int) ≤ -5) := by
  decide

/-- C8, amended: every TTL that `HandleRoutes` hands to `SetIngressRouteKey` is the
integer `strconv.Atoi` returns for the TTL text the directive scan selected from the
`Cache-Control` value of the response: a signed 64-bit integer, which is non-negative
whenever that text does not start with `-`. -/
theorem C8_ttl_is_signed_atoi_value (env : Env) (request : Request) (ttl : Int)
    (hmem : ttl ∈ (HandleRoutes env request).filterMap Event.ttl?) :
    ∃ route redisKey response cacheTime,
      Missed env request route redisKey response
        ∧ scanCacheControl (Split (cacheControl response) ',') = some cacheTime
        ∧ ttl = (Atoi cacheTime).1
        ∧ -(2 : Int) ^ 63 ≤ ttl ∧ ttl < (2 : Int) ^ 63
        ∧ (cacheTime.head? ≠ some '-' → 0 ≤ ttl) := by
  obtain ⟨e, he, httl⟩ := List.mem_filterMap.mp hmem
  have hset : e.isSet = true := by
    cases e <;> simp_all [Event.ttl?, Event.isSet]
  obtain ⟨route, redisKey, response, cacheTime, hmiss, -, -, hscan, -, rfl⟩ :=
    HandleRoutes_set_origin he hset
  simp only [Event.ttl?, Option.some.injEq] at httl
  subst httl
  exact ⟨route, redisKey, response, cacheTime, hmiss, hscan, rfl, (Atoi_range _).1,
    (Atoi_range _).2, Atoi_nonneg _⟩

/-- C8, witness: the amended statement at the TTL `-5` of the example run for
`Cache-Control: max-age=-5`. -/
theorem C8_ttl_is_signed_atoi_value_witness :
    (-5 : Int) ∈ (HandleRoutes (exEnv "max-age=-5".toList) exRequest).filterMap Event.ttl?
      ∧ ∃ route redisKey response cacheTime,
          Missed (exEnv "max-age=-5".toList) exRequest route redisKey response
            ∧ scanCacheControl (Split (cacheControl response) ',') = some cacheTime
            ∧ (-5 : Int) = (Atoi cacheTime).1
            ∧ -(2 : Int) ^ 63 ≤ -5 ∧ (-5 : Int) < (2 : Int) ^ 63
            ∧ (cacheTime.head? ≠ some '-' → (0 : Int) ≤ -5) :=
  ⟨by decide,
    C8_ttl_is_signed_atoi_value (exEnv "max-age=-5".toList) exRequest (-5) (by decide)⟩

/-! ## C9 -/

/-- C9, the code at the failing input `Cache-Control: max-age`: the directive has no
`=`, its split on `=` has the single element `max-age`, the read of element 1 panics,
and the run of the example deployment ends in that panic without having written a
status line, a header or a body byte. -/
theorem C9_duration_without_equals_panics :
    Split "max-age".toList '=' = ["max-age".toList]
      ∧ scanCacheControl (Split "max-age".toList ',') = none
      ∧ (HandleRoutes (exEnv "max-age".toList) exRequest).countP Event.isPanic = 1
      ∧ (HandleRoutes (exEnv "max-age".toList) exRequest).getLast?.map Event.isPanic
          = some true
      ∧ (HandleRoutes (exEnv "max-age".toList) exRequest).filterMap Event.status? = []
      ∧ (HandleRoutes (exEnv "max-age".toList) exRequest).filterMap Event.body? = [] := by
  decide

/-! ## C10 -/

/-- C10: `prepareHeaders` returns a list of the same length in which the `i`-th header
has the `i`-th input header's `Key` and `Op`, and as `Value` the evaluated string when
the evaluation gives a string, the JSON serialization of the evaluated value when it
gives a non-string, and the input header's own `Value` when the evaluation fails. -/
theorem C10_prepareHeaders_resolves_each_header (env : Env) (headers : List ConfigHeader)
    (state : Value) :
    (prepareHeaders env headers state).length = headers.length
      ∧ ∀ i : Nat, (prepareHeaders env headers state)[i]?
          = headers[i]?.map (fun header : ConfigHeader =>
              ({ Key := header.Key
                 Op := header.Op
                 Value :=
                   match env.LoadValue header.Value state with
                   | .ok (.str temp) => temp
                   | .ok value => env.Marshal value
                   | .error _ => header.Value } : ConfigHeader)) := by
  refine ⟨by simp [prepareHeaders], fun i => ?_⟩
  simp only [prepareHeaders, List.getElem?_map]
  cases headers[i]? with
  | none => rfl
  | some header =>
    simp only [Option.map_some']
    cases env.LoadValue header.Value state with
    | error err => rfl
    | ok value => cases value <;> rfl

/-- C10, example: the three outcomes side by side. -/
theorem C10_prepareHeaders_resolves_each_header_witness :
    (prepareHeaders exEnvHeaders exHeaders .null).map (fun h => (h.Key, h.Value, h.Op))
      = [("X-Token".toList, "tok".toList, "set".toList),
         ("X-Auth".toList, "\x7b\x7d".toList, "add".toList),
         ("X-Plain".toList, "plain".toList, "del".toList)]
      ∧ (prepareHeaders exEnvHeaders exHeaders .null).length = exHeaders.length :=
  ⟨by decide, (C10_prepareHeaders_resolves_each_header exEnvHeaders exHeaders .null).1⟩

/-! ## The upstream path -/

theorem HandleRoutes_of_sent {env : Env} {request : Request} {route : Route}
    {redisKey : Str} (h : Sent env request route redisKey) :
    ∃ pre, (∀ e ∈ pre, e.isPrelude = true) ∧
      HandleRoutes env request = pre ++ upstream env (boundRequest env request route) route
        (env.modifyRequest route request).token (env.modifyRequest route request).claims
        redisKey := by
  rcases h.keyed with ⟨hnot, hkey⟩ | ⟨cacheOptions, hl, herr, hhit, hkey⟩
  · obtain ⟨pre, hq, -, hpre⟩ := HandleRoutes_of_bound h.bound
    refine ⟨pre, hq, ?_⟩
    rw [hpre, hkey]
    unfold cacheLookup
    rw [if_neg hnot]
  · obtain ⟨pre, hq, hpre⟩ := HandleRoutes_of_looked hl
    refine ⟨pre, hq, ?_⟩
    rw [hpre, herr, hhit, hkey]
    simp

theorem Missed.sent {env : Env} {request : Request} {route : Route} {redisKey : Str}
    {response : Response} (h : Missed env request route redisKey response) :
    Sent env request route redisKey := by
  obtain ⟨cacheOptions, hl, herr, hhit, hkey⟩ := h.looked
  exact ⟨hl.bound, Or.inr ⟨cacheOptions, hl, herr, hhit, hkey⟩⟩

theorem prelude_not_clientWrite (e : Event) (h : e.isPrelude = true) :
    e.isClientWrite = false := by
  cases e <;> simp_all [Event.isPrelude, Event.isClientWrite]

theorem storeEvents_not_clientWrite (env : Env) (redisKey : Str) (response : Response)
    (cacheTime : Str) :
    ∀ e ∈ storeEvents env redisKey response cacheTime, e.isClientWrite = false := by
  intro e he
  simp only [storeEvents, List.mem_append, List.mem_cons] at he
  rcases he with (he | rfl | he) | rfl | he
  · obtain ⟨m, rfl⟩ := mem_logIfError he
    rfl
  · rfl
  · obtain ⟨m, rfl⟩ := mem_logIfError he
    rfl
  · rfl
  · obtain ⟨m, rfl⟩ := mem_logIfError he
    rfl

theorem no_clientWrite_status {l : List Event} (h : ∀ e ∈ l, e.isClientWrite = false) :
    l.filterMap Event.status? = [] := by
  rw [List.filterMap_eq_nil_iff]
  intro e he
  have := h e he
  cases e <;> first | rfl | (simp [Event.isClientWrite] at this)

theorem no_clientWrite_body {l : List Event} (h : ∀ e ∈ l, e.isClientWrite = false) :
    l.filterMap Event.body? = [] := by
  rw [List.filterMap_eq_nil_iff]
  intro e he
  have := h e he
  cases e <;> first | rfl | (simp [Event.isClientWrite] at this)

theorem no_clientWrite_writerHeader (k : Str) {l : List Event}
    (h : ∀ e ∈ l, e.isClientWrite = false) : writerHeader k l = none := by
  induction l with
  | nil => rfl
  | cons e rest ih =>
    rw [writerHeader, ih (fun e he => h e (List.mem_cons_of_mem _ he)), Option.none_or]
    have hp := h e (List.mem_cons_self _ _)
    clear h ih
    cases e <;> first | rfl | (simp [Event.isClientWrite] at hp)

theorem logIfError_status (o : Option Str) : (logIfError o).filterMap Event.status? = [] := by
  cases o <;> rfl

theorem logIfError_body (o : Option Str) : (logIfError o).filterMap Event.body? = [] := by
  cases o <;> rfl

theorem logIfError_writerHeader (k : Str) (o : Option Str) :
    writerHeader k (logIfError o) = none := by
  cases o <;> rfl

theorem emitResponse_status (response : Response)
    (h : 100 ≤ response.StatusCode ∧ response.StatusCode ≤ 999) :
    (emitResponse response).filterMap Event.status? = [response.StatusCode] := by
  simp [emitResponse_valid h, List.filterMap_append, List.filterMap_map, logIfError_status,
    Event.status?]

theorem emitResponse_body (response : Response)
    (h : 100 ≤ response.StatusCode ∧ response.StatusCode ≤ 999) :
    (emitResponse response).filterMap Event.body? = [response.Body.data] := by
  simp [emitResponse_valid h, List.filterMap_append, List.filterMap_map, logIfError_body,
    Event.body?]

theorem emitResponse_writerHeader (response : Response)
    (h : 100 ≤ response.StatusCode ∧ response.StatusCode ≤ 999)
    (hnodup : (response.Header.map Prod.fst).Nodup) :
    ∀ kv ∈ response.Header, writerHeader kv.1 (emitResponse response) = some kv.2 := by
  intro kv hkv
  have htail : writerHeader kv.1
      (Event.writeHeader response.StatusCode :: (Event.write response.Body.data ::
        (logIfError response.Body.err ++ [Event.logDebug]))) = none := by
    rw [writerHeader, writerHeader, writerHeader_append, logIfError_writerHeader]
    rfl
  rw [emitResponse_valid h, writerHeader_append, htail, Option.none_or,
    writerHeader_headers _ hnodup kv hkv]

theorem emitResponse_panics {response : Response}
    (h : ¬ (100 ≤ response.StatusCode ∧ response.StatusCode ≤ 999)) :
    (emitResponse response).countP Event.isPanic = 1 := by
  rw [emitResponse, writeStatus_invalid h, List.countP_append]
  have h1 : (response.Header.map (fun kv => Event.setHeader kv.1 kv.2)).countP Event.isPanic
      = 0 := by
    rw [List.countP_eq_zero]
    intro x hx
    obtain ⟨kv, -, rfl⟩ := List.mem_map.mp hx
    simp [Event.isPanic]
  rw [h1]
  rfl

/-- Unless the run panics, the response that the post-processor leaves is what the
client receives on the upstream path: after events that write nothing to the client,
the run ends with the emission of that response, whose body the store branch may have
re-wrapped. Its status is the only status written, its body bytes the only body
written, and the writer's header map holds every one of its headers. -/
theorem upstream_response_reaches_client {env : Env} {request : Request} {route : Route}
    {redisKey : Str} {fresh response : Response}
    (hs : Sent env request route redisKey)
    (hdo : env.Do (boundRequest env request route) = .ok fresh)
    (hmod : env.modifyResponse fresh route (env.modifyRequest route request).token
      (env.modifyRequest route request).claims = .ok response)
    (hnp : (HandleRoutes env request).countP Event.isPanic = 0) :
    (∃ pre r, (∀ e ∈ pre, e.isClientWrite = false) ∧ (r = response ∨ r = rewrapped response)
        ∧ HandleRoutes env request = pre ++ emitResponse r)
      ∧ (HandleRoutes env request).filterMap Event.status? = [response.StatusCode]
      ∧ (HandleRoutes env request).filterMap Event.body? = [response.Body.data]
      ∧ ((response.Header.map Prod.fst).Nodup →
          ∀ kv ∈ response.Header, writerHeader kv.1 (HandleRoutes env request) = some kv.2) := by
  obtain ⟨pre, hq, hpre⟩ := HandleRoutes_of_sent hs
  have hshape : ∃ pre r, (∀ e ∈ pre, e.isClientWrite = false)
      ∧ (r = response ∨ r = rewrapped response)
      ∧ HandleRoutes env request = pre ++ emitResponse r := by
    simp only [upstream, hdo, hmod, storeAndEmit] at hpre
    cases hcs : cacheStore env (boundRequest env request route) route redisKey response with
    | none =>
      rw [hcs] at hpre
      rw [hpre] at hnp
      simp [List.countP_append, List.countP_cons, Event.isPanic] at hnp
    | some r =>
      rw [hcs] at hpre
      simp only at hpre
      have hfront : ∀ e ∈ pre ++ [Event.httpDo (boundRequest env request route),
          Event.modifyResponse fresh], e.isClientWrite = false := by
        intro e he
        simp only [List.mem_append, List.mem_cons, List.mem_singleton, List.not_mem_nil,
          or_false] at he
        rcases he with he | rfl | rfl
        · exact prelude_not_clientWrite e (hq e he)
        · rfl
        · rfl
      rcases cacheStore_some hcs with hr | ⟨cacheTime, -, -, -, hr⟩
      · subst hr
        exact ⟨_, response, hfront, Or.inl rfl, by rw [hpre]; simp⟩
      · subst hr
        refine ⟨(pre ++ [Event.httpDo (boundRequest env request route),
          Event.modifyResponse fresh]) ++ storeEvents env redisKey response cacheTime,
          rewrapped response, ?_, Or.inr rfl, by rw [hpre]; simp⟩
        intro e he
        rcases List.mem_append.mp he with he | he
        · exact hfront e he
        · exact storeEvents_not_clientWrite _ _ _ _ e he
  obtain ⟨front, r, hfront, hr, htrace⟩ := hshape
  have hstatus : r.StatusCode = response.StatusCode := by rcases hr with rfl | rfl <;> rfl
  have hbody : r.Body.data = response.Body.data := by rcases hr with rfl | rfl <;> rfl
  have hheader : r.Header = response.Header := by rcases hr with rfl | rfl <;> rfl
  have hvalid : 100 ≤ r.StatusCode ∧ r.StatusCode ≤ 999 := by
    by_contra hbad
    have hone := emitResponse_panics hbad
    rw [htrace, List.countP_append] at hnp
    omega
  refine ⟨⟨front, r, hfront, hr, htrace⟩, ?_, ?_, ?_⟩
  · rw [htrace, List.filterMap_append, no_clientWrite_status hfront,
      emitResponse_status r hvalid, hstatus, List.nil_append]
  · rw [htrace, List.filterMap_append, no_clientWrite_body hfront,
      emitResponse_body r hvalid, hbody, List.nil_append]
  · intro hnodup kv hkv
    rw [← hheader] at hnodup hkv
    rw [htrace, writerHeader_append, emitResponse_writerHeader r hvalid hnodup kv hkv,
      Option.or_some]

/-! ## C11 -/

/-- C11, the code at the failing input `Cache-Control: max-age`: the example run is a
cacheable GET miss whose upstream answers 200 with two headers and the body `hello`,
and whose post-processing succeeds; the directive scan panics, so the client gets no
status line, no header and no body byte. -/
theorem C11_panic_loses_the_upstream_response :
    Missed (exEnv "max-age".toList) exRequest exRoute "r1".toList
        (exResponse "max-age".toList)
      ∧ (exResponse "max-age".toList).StatusCode = 200
      ∧ (exResponse "max-age".toList).Body.data = "hello".toList
      ∧ (HandleRoutes (exEnv "max-age".toList) exRequest).countP Event.isPanic = 1
      ∧ (HandleRoutes (exEnv "max-age".toList) exRequest).filterMap Event.status? = []
      ∧ (HandleRoutes (exEnv "max-age".toList) exRequest).filterMap Event.body? = []
      ∧ writerHeader "Content-Type".toList (HandleRoutes (exEnv "max-age".toList) exRequest)
          = none :=
  ⟨exEnv_missed _, by decide, by decide, by decide, by decide, by decide, by decide⟩

/-! ## C12 -/

theorem exEnvUpstreamDown_sent : Sent exEnvUpstreamDown exRequest exRoute "r1".toList where
  bound := { selected := ⟨"example.com".toList, rfl, rfl⟩, accepted := rfl, targeted := rfl }
  keyed := Or.inr ⟨[.str "http://svc:8080/api/items?x=1".toList],
    { bound := { selected := ⟨"example.com".toList, rfl, rfl⟩, accepted := rfl,
                 targeted := rfl }
      cacheable := rfl
      isGet := rfl
      evaluated := rfl }, rfl, rfl, rfl⟩

/-- C12: when route selection fails with `err`, the run is the call of the route
matcher, `WriteHeader(400)` and the JSON encoding of the object with the single field
`error` holding the message, and nothing else; when the upstream send fails with
`err`, the run ends with the send, `WriteHeader(500)`, the same encoding of `err`
and a log line, after read-only calls only: 500 is the only status written, and
there is neither a response mutation nor a cache store. -/
theorem C12_route_and_upstream_failures (env : Env) (request : Request) :
    (∀ host err, getHostAndURL request = some (host, request.URL.Path) →
        env.selectRoute host request.Method request.URL.Path = .error err →
        HandleRoutes env request
          = [.selectRoute host request.Method request.URL.Path, .writeHeader 400,
             .encodeError err])
      ∧ (∀ route redisKey err, Sent env request route redisKey →
          env.Do (boundRequest env request route) = .error err →
          (∃ pre, (∀ e ∈ pre, e.isPrelude = true) ∧
              HandleRoutes env request = pre ++ [.httpDo (boundRequest env request route),
                .writeHeader 500, .encodeError err, .logError err])
            ∧ (HandleRoutes env request).filterMap Event.status? = [500]
            ∧ (HandleRoutes env request).countP Event.isModifyResponse = 0
            ∧ (HandleRoutes env request).countP Event.isSet = 0) := by
  constructor
  · intro host err hh hr
    simp [HandleRoutes, hh, hr]
  · intro route redisKey err hs hdo
    obtain ⟨pre, hq, hpre⟩ := HandleRoutes_of_sent hs
    simp only [upstream, hdo] at hpre
    refine ⟨⟨pre, hq, hpre⟩, ?_, ?_, ?_⟩
    · rw [hpre, List.filterMap_append, prelude_no_status hq]
      rfl
    · rw [hpre, List.countP_append, prelude_count hq _ prelude_not_modifyResponse]
      rfl
    · rw [hpre, List.countP_append, prelude_count hq _ prelude_not_isSet]
      rfl

/-- C12, example: the two failures in the example deployment. -/
theorem C12_route_and_upstream_failures_witness :
    HandleRoutes exEnvNoRoute exRequest
        = [.selectRoute "example.com".toList "GET".toList "/api/items".toList,
           .writeHeader 400, .encodeError "route not found".toList]
      ∧ (HandleRoutes exEnvUpstreamDown exRequest).filterMap Event.status? = [500]
      ∧ (HandleRoutes exEnvUpstreamDown exRequest).countP Event.isModifyResponse = 0 :=
  ⟨(C12_route_and_upstream_failures exEnvNoRoute exRequest).1 _ _ rfl rfl,
    ((C12_route_and_upstream_failures exEnvUpstreamDown exRequest).2 _ _ _
      exEnvUpstreamDown_sent rfl).2.1,
    ((C12_route_and_upstream_failures exEnvUpstreamDown exRequest).2 _ _ _
      exEnvUpstreamDown_sent rfl).2.2.1⟩

/-! ## The cache-key expressions -/

theorem HandleRoutes_bound_eq {env : Env} {request : Request} {route : Route}
    (h : Bound env request route) :
    ∃ host, getHostAndURL request = some (host, request.URL.Path) ∧
      HandleRoutes env request =
        [.selectRoute host request.Method request.URL.Path, .modifyRequest route request,
          .logDebug, .selectTarget route (-1)]
        ++ cacheLookup env (boundRequest env request route) route
          (env.modifyRequest route request).token (env.modifyRequest route request).claims := by
  obtain ⟨host, hh, hr⟩ := h.selected
  exact ⟨host, hh, by simp [HandleRoutes, hh, hr, h.accepted, h.targeted, boundRequest]⟩

theorem loadCacheOptions_ok (env : Env) (state : Value) :
    ∀ (keys : List Str) (vals acc : List Value),
      keys.map (fun k => env.LoadValue k state) = vals.map Except.ok →
      loadCacheOptions env state keys acc
        = (keys.map (fun k => Event.loadValue k state), .ok (acc ++ vals)) := by
  intro keys
  induction keys with
  | nil =>
    intro vals acc h
    cases vals with
    | nil => simp [loadCacheOptions]
    | cons v vs => simp at h
  | cons key rest ih =>
    intro vals acc h
    cases vals with
    | nil => simp at h
    | cons v vs =>
      simp only [List.map_cons, List.cons.injEq] at h
      rw [loadCacheOptions, h.1]
      simp only
      rw [ih vs (acc ++ [v]) h.2]
      simp

theorem loadCacheOptions_fail (env : Env) (state : Value) (key : Str) (post : List Str)
    (err : Str) (hkey : env.LoadValue key state = .error err) :
    ∀ (pre : List Str) (vals acc : List Value),
      pre.map (fun k => env.LoadValue k state) = vals.map Except.ok →
      loadCacheOptions env state (pre ++ key :: post) acc
        = ((pre ++ [key]).map (fun k => Event.loadValue k state), .error err) := by
  intro pre
  induction pre with
  | nil =>
    intro vals acc _
    simp [loadCacheOptions, hkey]
  | cons k rest ih =>
    intro vals acc h
    cases vals with
    | nil => simp at h
    | cons v vs =>
      simp only [List.map_cons, List.cons.injEq] at h
      rw [List.cons_append, loadCacheOptions, h.1]
      simp only
      rw [ih vs (acc ++ [v]) h.2]
      simp

theorem step_not_lookup (e : Event) (h : e.isUpstreamStep = true) : e.lookup? = none := by
  cases e <;> simp_all [Event.isUpstreamStep, Event.lookup?]

theorem step_not_loadKey (e : Event) (h : e.isUpstreamStep = true) : e.loadKey? = none := by
  cases e <;> simp_all [Event.isUpstreamStep, Event.loadKey?]

/-- When every cache-key expression evaluates, the cache stage is the evaluations in
order, the lookup call with the evaluated values, and a remainder that neither
evaluates nor looks up anything. -/
theorem cacheLookup_evaluated {env : Env} {request : Request} {route : Route} {token : Str}
    {claims : Value} {vals : List Value}
    (hc : route.IsRouteCacheable = true) (hg : request.Method = "GET".toList)
    (hvals : route.CacheOptions.map
        (fun k => env.LoadValue k (requestState env request token claims))
      = vals.map Except.ok) :
    ∃ rest, cacheLookup env request route token claims
        = route.CacheOptions.map
            (fun k => Event.loadValue k (requestState env request token claims))
          ++ .getIngressRoute route.ID vals :: rest
      ∧ ∀ e ∈ rest, e.lookup? = none ∧ e.loadKey? = none := by
  unfold cacheLookup
  rw [if_pos ⟨hc, hg⟩, loadCacheOptions_ok env _ route.CacheOptions vals [] hvals]
  simp only [List.nil_append]
  refine ⟨_, rfl, ?_⟩
  intro e he
  cases herr : (env.GetIngressRoute route.ID vals).err with
  | some err =>
    rw [herr] at he
    simp at he
    subst he
    exact ⟨rfl, rfl⟩
  | none =>
    rw [herr] at he
    simp only at he
    cases hhit : (env.GetIngressRoute route.ID vals).isCacheHit with
    | true =>
      rw [hhit] at he
      simp only [if_true] at he
      cases hres : (env.GetIngressRoute route.ID vals).result with
      | none =>
        rw [hres] at he
        simp at he
        subst he
        exact ⟨rfl, rfl⟩
      | some result =>
        rw [hres] at he
        simp only [List.mem_append, List.mem_map, List.mem_cons, List.mem_singleton,
          List.not_mem_nil, or_false] at he
        rcases he with ⟨kv, _, rfl⟩ | rfl | rfl | rfl <;> exact ⟨rfl, rfl⟩
    | false =>
      rw [hhit] at he
      simp only [Bool.false_eq_true, if_false] at he
      have hstep := upstream_steps _ _ _ _ _ _ e he
      exact ⟨step_not_lookup e hstep, step_not_loadKey e hstep⟩

theorem filterMap_loadKey_map (state : Value) (keys : List Str) :
    (keys.map (fun k => Event.loadValue k state)).filterMap Event.loadKey? = keys := by
  induction keys with
  | nil => rfl
  | cons k rest ih => simp [Event.loadKey?, ih]

theorem filterMap_status_map_load (state : Value) (keys : List Str) :
    (keys.map (fun k => Event.loadValue k state)).filterMap Event.status? = [] := by
  induction keys with
  | nil => rfl
  | cons k rest ih => simp [Event.status?, ih]

theorem filterMap_lookup_map_load (state : Value) (keys : List Str) :
    (keys.map (fun k => Event.loadValue k state)).filterMap Event.lookup? = [] := by
  induction keys with
  | nil => rfl
  | cons k rest ih => simp [Event.lookup?, ih]

theorem countP_httpDo_map_load (state : Value) (keys : List Str) :
    (keys.map (fun k => Event.loadValue k state)).countP Event.isHttpDo = 0 := by
  induction keys with
  | nil => rfl
  | cons k rest ih => simp [Event.isHttpDo, ih]

theorem exEnvKeys_bound : Bound exEnvKeys exRequest exRouteKeys where
  selected := ⟨"example.com".toList, rfl, rfl⟩
  accepted := rfl
  targeted := rfl

theorem exEnvTwoKeys_bound :
    Bound exEnvTwoKeys exRequest
      { exRouteKeys with CacheOptions := ["args.url".toList, "args.token".toList] } where
  selected := ⟨"example.com".toList, rfl, rfl⟩
  accepted := rfl
  targeted := rfl

/-! ## C13 -/

/-- C13: for every cacheable GET request that gets as far as the cache stage: if the
evaluation of one of the route's cache-key expressions fails while those before it
succeed, the handler evaluates the expressions up to and including that one, answers
with status 400 through `SendErrorResponse` right after the failure, and calls
neither the lookup nor the upstream; if all evaluations succeed, the handler calls the
lookup exactly once, with the route's ID and the evaluated values, which are as
many as the expressions and in their order. -/
theorem C13_cache_key_evaluation {env : Env} {request : Request} {route : Route}
    (hb : Bound env request route) (hc : route.IsRouteCacheable = true)
    (hg : (boundRequest env request route).Method = "GET".toList) :
    (∀ (pre : List Str) (key : Str) (post : List Str) (vals : List Value) (err : Str),
        route.CacheOptions = pre ++ key :: post →
        pre.map (fun k => env.LoadValue k (keyState env request route)) = vals.map Except.ok →
        env.LoadValue key (keyState env request route) = .error err →
        (HandleRoutes env request).filterMap Event.loadKey? = pre ++ [key]
          ∧ (∃ front, HandleRoutes env request = front
              ++ [.loadValue key (keyState env request route), .sendErrorResponse 400 err])
          ∧ (HandleRoutes env request).filterMap Event.status? = [400]
          ∧ (HandleRoutes env request).filterMap Event.lookup? = []
          ∧ (HandleRoutes env request).countP Event.isHttpDo = 0)
      ∧ (∀ vals : List Value,
          route.CacheOptions.map (fun k => env.LoadValue k (keyState env request route))
            = vals.map Except.ok →
          (HandleRoutes env request).filterMap Event.lookup? = [(route.ID, vals)]
            ∧ (HandleRoutes env request).filterMap Event.loadKey? = route.CacheOptions
            ∧ vals.length = route.CacheOptions.length) := by
  obtain ⟨host, -, heq⟩ := HandleRoutes_bound_eq hb
  constructor
  · intro pre key post vals err hopts hpre hkey
    have hlook : cacheLookup env (boundRequest env request route) route
        (env.modifyRequest route request).token (env.modifyRequest route request).claims
        = (pre ++ [key]).map (fun k => Event.loadValue k (keyState env request route))
          ++ [.sendErrorResponse 400 err] := by
      unfold cacheLookup
      rw [if_pos ⟨hc, hg⟩, hopts]
      have := loadCacheOptions_fail env (keyState env request route) key post err hkey
        pre vals [] hpre
      unfold keyState at this
      rw [this]
      rfl
    rw [heq, hlook]
    refine ⟨?_, ?_, ?_, ?_, ?_⟩
    · rw [List.filterMap_append, List.filterMap_append, filterMap_loadKey_map]
      simp [Event.loadKey?]
    · refine ⟨[.selectRoute host request.Method request.URL.Path,
        .modifyRequest route request, .logDebug, .selectTarget route (-1)]
        ++ pre.map (fun k => Event.loadValue k (keyState env request route)), ?_⟩
      simp
    · rw [List.filterMap_append, List.filterMap_append, filterMap_status_map_load]
      simp [Event.status?]
    · rw [List.filterMap_append, List.filterMap_append, filterMap_lookup_map_load]
      simp [Event.lookup?]
    · rw [List.countP_append, List.countP_append, countP_httpDo_map_load]
      simp [Event.isHttpDo]
  · intro vals hvals
    obtain ⟨rest, hlook, hrest⟩ := cacheLookup_evaluated hc hg hvals
    have hrest1 : rest.filterMap Event.lookup? = [] :=
      List.filterMap_eq_nil_iff.mpr (fun e he => (hrest e he).1)
    have hrest2 : rest.filterMap Event.loadKey? = [] :=
      List.filterMap_eq_nil_iff.mpr (fun e he => (hrest e he).2)
    refine ⟨?_, ?_, ?_⟩
    · rw [heq, hlook]
      simp only [List.filterMap_append, List.filterMap_cons, List.filterMap_nil,
        filterMap_lookup_map_load, hrest1, Event.lookup?, List.nil_append, List.append_nil]
    · rw [heq, hlook]
      simp only [List.filterMap_append, List.filterMap_cons, List.filterMap_nil,
        filterMap_loadKey_map, hrest2, Event.loadKey?, List.nil_append, List.append_nil]
    · have := congrArg List.length hvals
      simpa using this.symm


/-- C13, witness: in the example with the keys `args.url`, `args.missing`,
`args.token` the second evaluation fails, the third is never made and no lookup is
called; with the keys `args.url`, `args.token` the lookup is called once with the two
values. -/
theorem C13_cache_key_evaluation_witness :
    (HandleRoutes exEnvKeys exRequest).filterMap Event.loadKey?
        = ["args.url".toList, "args.missing".toList]
      ∧ (HandleRoutes exEnvKeys exRequest).filterMap Event.status? = [400]
      ∧ (HandleRoutes exEnvKeys exRequest).filterMap Event.lookup? = []
      ∧ (HandleRoutes exEnvTwoKeys exRequest).filterMap Event.lookup?
          = [("r3".toList, [.str "u".toList, .str "tok".toList])] :=
  have hfail := (C13_cache_key_evaluation exEnvKeys_bound rfl rfl).1
    ["args.url".toList] "args.missing".toList ["args.token".toList] [.str "u".toList]
    "not found".toList rfl rfl rfl
  have hok := (C13_cache_key_evaluation exEnvTwoKeys_bound rfl rfl).2
    [.str "u".toList, .str "tok".toList] rfl
  ⟨hfail.1, hfail.2.2.1, hfail.2.2.2.1, hok.1⟩

/-! ## C14 -/

/-- C14: when target selection with weight `-1` succeeds with target `t`, `setRequest`
returns no error and leaves the request with `RequestURI` empty, `Host = t.Host`,
`URL.Host = t.Host ++ ":" ++ decimal t.Port`, `URL.Path` the resolved path, and
`URL.Scheme` equal to `http` if `t.Scheme` is empty and to `t.Scheme` otherwise; when
selection fails, it returns the selector's error and leaves `Host` and `URL` as they
were. -/
theorem C14_setRequest_binds_target (env : Env) (request : Request) (route : Route)
    (url : Str) :
    (∀ t, env.SelectTarget route (-1) = .ok t →
        (setRequest env request route url).2 = none
          ∧ (setRequest env request route url).1.RequestURI = []
          ∧ (setRequest env request route url).1.Host = t.Host
          ∧ (setRequest env request route url).1.URL.Host
              = t.Host ++ ":".toList ++ (toString t.Port).toList
          ∧ (setRequest env request route url).1.URL.Path = url
          ∧ (setRequest env request route url).1.URL.Scheme
              = (if t.Scheme = [] then "http".toList else t.Scheme))
      ∧ (∀ err, env.SelectTarget route (-1) = .error err →
          (setRequest env request route url).2 = some err
            ∧ (setRequest env request route url).1.Host = request.Host
            ∧ (setRequest env request route url).1.URL = request.URL) := by
  constructor
  · intro t ht
    simp [setRequest, ht, hostPort]
  · intro err herr
    simp [setRequest, herr]

/-- C14, example: the example request bound to the example target `svc:8080`, which
has no scheme. -/
theorem C14_setRequest_binds_target_witness :
    (setRequest (exEnv []) exRequest exRoute "/api/items".toList).1.URL.Host
        = "svc:8080".toList
      ∧ (setRequest (exEnv []) exRequest exRoute "/api/items".toList).1.URL.Scheme
        = "http".toList
      ∧ (setRequest exEnvNoTarget exRequest exRoute "/x".toList).2
        = some "no targets".toList
      ∧ (setRequest exEnvNoTarget exRequest exRoute "/x".toList).1.Host = exRequest.Host :=
  ⟨((C14_setRequest_binds_target (exEnv []) exRequest exRoute "/api/items".toList).1
      exTarget rfl).2.2.2.1,
    ((C14_setRequest_binds_target (exEnv []) exRequest exRoute "/api/items".toList).1
      exTarget rfl).2.2.2.2.2,
    ((C14_setRequest_binds_target exEnvNoTarget exRequest exRoute "/x".toList).2
      "no targets".toList rfl).1,
    ((C14_setRequest_binds_target exEnvNoTarget exRequest exRoute "/x".toList).2
      "no targets".toList rfl).2.1⟩

/-! ## C15 -/

theorem HasPrefix_append (pre rest : Str) : HasPrefix (pre ++ rest) pre = true := by
  unfold HasPrefix
  rw [List.isPrefixOf_iff_prefix]
  exact List.prefix_append pre rest

theorem HasPrefix_iff (s pre : Str) : HasPrefix s pre = true ↔ ∃ rest, s = pre ++ rest := by
  unfold HasPrefix
  rw [List.isPrefixOf_iff_prefix]
  constructor
  · rintro ⟨rest, h⟩
    exact ⟨rest, h.symm⟩
  · rintro ⟨rest, h⟩
    exact ⟨rest, h.symm⟩

/-- C15: `rewriteURL` returns the path unchanged when the route has no rewrite prefix;
otherwise it returns the rewrite prefix followed by the path without one leading
occurrence of the source prefix when the path starts with it, and by the whole path
when it does not. It is a total function: it has no failing case. -/
theorem C15_rewriteURL_strips_and_prepends (path : Str) (route : Route) :
    (route.Source.RewriteURL = [] → rewriteURL path route = path)
      ∧ (route.Source.RewriteURL ≠ [] → ∀ rest, path = route.Source.URL ++ rest →
          rewriteURL path route = route.Source.RewriteURL ++ rest)
      ∧ (route.Source.RewriteURL ≠ [] → (¬ ∃ rest, path = route.Source.URL ++ rest) →
          rewriteURL path route = route.Source.RewriteURL ++ path) := by
  refine ⟨?_, ?_, ?_⟩
  · intro h
    simp [rewriteURL, h]
  · intro h rest hpath
    subst hpath
    unfold rewriteURL TrimPrefix
    rw [if_pos h, if_pos (HasPrefix_append _ _), List.drop_left]
  · intro h hnot
    have hfalse : HasPrefix path route.Source.URL = false := by
      rw [← Bool.not_eq_true, HasPrefix_iff]
      exact hnot
    unfold rewriteURL
    rw [if_pos h, TrimPrefix_of_not_HasPrefix hfalse]

/-- C15, example: `/api/items` under the route rewriting `/api` to `/v2` becomes
`/v2/items`, and is left alone under the example route, which has no rewrite. -/
theorem C15_rewriteURL_strips_and_prepends_witness :
    rewriteURL "/api/items".toList exRewriteRoute = "/v2".toList ++ "/items".toList
      ∧ rewriteURL "/api/items".toList exRoute = "/api/items".toList :=
  ⟨(C15_rewriteURL_strips_and_prepends "/api/items".toList exRewriteRoute).2.1 (by decide)
      "/items".toList rfl,
    (C15_rewriteURL_strips_and_prepends "/api/items".toList exRoute).1 rfl⟩

/-! ## C19 -/

/-- The first element of a split is the text before the first separator. -/
theorem Split_head (sep : Char) :
    ∀ s : Str, ∃ head tail, Split s sep = head :: tail ∧ sep ∉ head
      ∧ (s = head ∨ ∃ rest, s = head ++ sep :: rest) := by
  intro s
  induction s with
  | nil => exact ⟨[], [], rfl, by simp, Or.inl rfl⟩
  | cons c cs ih =>
    obtain ⟨head, tail, hsplit, hsep, hshape⟩ := ih
    by_cases hc : c = sep
    · refine ⟨[], Split cs sep, by rw [Split, if_pos hc], by simp, Or.inr ⟨cs, ?_⟩⟩
      rw [hc, List.nil_append]
    · refine ⟨c :: head, tail, by rw [Split, if_neg hc, hsplit], ?_, ?_⟩
      · simp only [List.mem_cons, not_or]
        exact ⟨fun h => hc h.symm, hsep⟩
      · rcases hshape with h | ⟨rest, h⟩
        · exact Or.inl (by rw [h])
        · exact Or.inr ⟨rest, by rw [h, List.cons_append]⟩

/-- C19: for every request, `getHostAndURL` returns: as host the part of
`request.Host` before its first `:`, which is the whole `Host` when it contains
none, so the host never contains `:`; and the URL path unchanged. The read of
element 0 of the split never fails, whatever `Host` is, the empty one included. -/
theorem C19_getHostAndURL_host_and_path (request : Request) :
    ∃ host, getHostAndURL request = some (host, request.URL.Path)
      ∧ ':' ∉ host
      ∧ (request.Host = host ∨ ∃ rest, request.Host = host ++ ':' :: rest)
      ∧ (':' ∉ request.Host → host = request.Host) := by
  obtain ⟨head, tail, hsplit, hsep, hshape⟩ := Split_head ':' request.Host
  refine ⟨head, by simp [getHostAndURL, hsplit], hsep, hshape, ?_⟩
  intro hno
  rcases hshape with h | ⟨rest, h⟩
  · exact h.symm
  · exact absurd (by rw [h]; simp) hno

/-- C19, example: `example.com:8080` gives `example.com`, and the empty `Host` gives
the empty host. -/
theorem C19_getHostAndURL_host_and_path_witness :
    getHostAndURL exRequest = some ("example.com".toList, "/api/items".toList)
      ∧ getHostAndURL { exRequest with Host := [] } = some ([], "/api/items".toList)
      ∧ ∃ host, getHostAndURL exRequest = some (host, exRequest.URL.Path) ∧ ':' ∉ host
          ∧ (exRequest.Host = host ∨ ∃ rest, exRequest.Host = host ++ ':' :: rest)
          ∧ (':' ∉ exRequest.Host → host = exRequest.Host) :=
  ⟨by decide, by decide, C19_getHostAndURL_host_and_path exRequest⟩

/-! ## C16 -/

/-- A non-empty TTL text comes from a piece that, once trimmed, starts with `max-age`
or `s-maxage`. -/
theorem scanCacheControl_found {cacheTime : Str} :
    ∀ parts : List Str, scanCacheControl parts = some cacheTime → cacheTime ≠ [] →
      ∃ p ∈ parts, isDuration (TrimSpace p) = true := by
  intro parts
  induction parts with
  | nil =>
    intro h hne
    simp only [scanCacheControl, Option.some.injEq] at h
    exact absurd h.symm hne
  | cons p rest ih =>
    intro h hne
    rw [scanCacheControl] at h
    simp only at h
    split_ifs at h with h0 h1 h2
    · simp only [Option.some.injEq] at h
      exact absurd h.symm hne
    · exact ⟨p, List.mem_cons_self _ _, by rw [isDuration, h1]; rfl⟩
    · exact ⟨p, List.mem_cons_self _ _, by rw [isDuration, h2, Bool.or_true]⟩
    · obtain ⟨q, hq, hd⟩ := ih h hne
      exact ⟨q, List.mem_cons_of_mem _ hq, hd⟩

theorem logIfError_no_set (o : Option Str) : (logIfError o).countP Event.isSet = 0 := by
  cases o <;> rfl

theorem storeEvents_set_count (env : Env) (redisKey : Str) (response : Response)
    (cacheTime : Str) :
    (storeEvents env redisKey response cacheTime).countP Event.isSet = 1 := by
  simp [storeEvents, List.countP_append, List.countP_cons, logIfError_no_set, Event.isSet]

theorem emitResponse_set_count (response : Response) :
    (emitResponse response).countP Event.isSet = 0 := by
  rw [List.countP_eq_zero]
  intro e he
  simp [emitResponse_no_set response e he]

/-- C16: `HandleRoutes` calls the cache store's set operation at most once per request,
and each call it makes is made in a run where the route is cacheable, the request
method is GET, the lookup reported a miss and returned a non-empty key, the upstream
response as post-processed carries a non-empty `Cache-Control` value, and one of the
directives of that value starts with `max-age` or `s-maxage`. -/
theorem C16_set_at_most_once_and_only_when (env : Env) (request : Request) :
    (HandleRoutes env request).countP Event.isSet ≤ 1
      ∧ ∀ e ∈ HandleRoutes env request, e.isSet = true →
          ∃ route redisKey response,
            Missed env request route redisKey response
              ∧ route.IsRouteCacheable = true
              ∧ (boundRequest env request route).Method = "GET".toList
              ∧ redisKey ≠ []
              ∧ cacheControl response ≠ []
              ∧ ∃ d ∈ (Split (cacheControl response) ',').map TrimSpace,
                  isDuration d = true := by
  constructor
  · by_cases hex : ∃ e ∈ HandleRoutes env request, e.isSet = true
    · obtain ⟨e, he, hset⟩ := hex
      obtain ⟨route, redisKey, response, cacheTime, hmiss, hk, -, hscan, hne, -⟩ :=
        HandleRoutes_set_origin he hset
      obtain ⟨pre, hq, hpre⟩ := HandleRoutes_of_missed hmiss
      obtain ⟨cacheOptions, hl, -, -, -⟩ := hmiss.looked
      rw [hpre, storeAndEmit_store hl.cacheable hk hl.isGet hscan hne, List.countP_append,
        List.countP_append, quiet_count hq _ quiet_not_isSet, storeEvents_set_count,
        emitResponse_set_count]
    · have hzero : (HandleRoutes env request).countP Event.isSet = 0 := by
        rw [List.countP_eq_zero]
        intro e he hset
        exact hex ⟨e, he, hset⟩
      omega
  · intro e he hset
    obtain ⟨route, redisKey, response, cacheTime, hmiss, hk, hcc, hscan, hne, -⟩ :=
      HandleRoutes_set_origin he hset
    obtain ⟨cacheOptions, hl, -, -, -⟩ := hmiss.looked
    obtain ⟨p, hp, hd⟩ := scanCacheControl_found _ hscan hne
    exact ⟨route, redisKey, response, hmiss, hl.cacheable, hl.isGet, hk, hcc,
      TrimSpace p, List.mem_map_of_mem _ hp, hd⟩

/-- C16, example: `Cache-Control: public` causes no set call, and `max-age=60` causes
exactly one. -/
theorem C16_set_at_most_once_and_only_when_witness :
    (HandleRoutes (exEnv "public".toList) exRequest).countP Event.isSet = 0
      ∧ (HandleRoutes (exEnv "max-age=60".toList) exRequest).countP Event.isSet = 1
      ∧ (HandleRoutes (exEnv "max-age=60".toList) exRequest).countP Event.isSet ≤ 1 :=
  ⟨by decide, by decide,
    (C16_set_at_most_once_and_only_when (exEnv "max-age=60".toList) exRequest).1⟩

/-! ## C17 -/

theorem isDuration_no_cache : isDuration (TrimSpace "no-cache".toList) = false := by decide

theorem scanCacheControl_no_cache_first (post : List Str) :
    ∀ pre : List Str, (∀ p ∈ pre, isDuration (TrimSpace p) = false) →
      scanCacheControl (pre ++ "no-cache".toList :: post) = some [] := by
  intro pre
  induction pre with
  | nil => intro _; simp [scanCacheControl]
  | cons p rest ih =>
    intro h
    have hp := h p (List.mem_cons_self _ _)
    simp only [isDuration, Bool.or_eq_false_iff] at hp
    rw [List.cons_append, scanCacheControl]
    by_cases h0 : p = "no-cache".toList
    · rw [if_pos h0]
    · rw [if_neg h0]
      simp only
      rw [if_neg (by rw [hp.1]; exact Bool.false_ne_true),
        if_neg (by rw [hp.2]; exact Bool.false_ne_true)]
      exact ih (fun q hq => h q (List.mem_cons_of_mem _ hq))

theorem scanCacheControl_duration_first (d : Str) (post : List Str)
    (hd : isDuration (TrimSpace d) = true) :
    ∀ pre : List Str,
      (∀ p ∈ pre, p ≠ "no-cache".toList ∧ isDuration (TrimSpace p) = false) →
      scanCacheControl (pre ++ d :: post) = (Split (TrimSpace d) '=')[1]? := by
  have hd0 : d ≠ "no-cache".toList := by
    intro h
    rw [h, isDuration_no_cache] at hd
    cases hd
  intro pre
  induction pre with
  | nil =>
    intro _
    rw [List.nil_append, scanCacheControl, if_neg hd0]
    simp only [isDuration, Bool.or_eq_true] at hd
    simp only
    by_cases h1 : HasPrefix (TrimSpace d) "max-age".toList = true
    · rw [if_pos h1]
    · rw [if_neg h1, if_pos (hd.resolve_left h1)]
  | cons p rest ih =>
    intro h
    have hp := h p (List.mem_cons_self _ _)
    have hp2 := hp.2
    simp only [isDuration, Bool.or_eq_false_iff] at hp2
    rw [List.cons_append, scanCacheControl, if_neg hp.1]
    simp only
    rw [if_neg (by rw [hp2.1]; exact Bool.false_ne_true),
      if_neg (by rw [hp2.2]; exact Bool.false_ne_true)]
    exact ih (fun q hq => h q (List.mem_cons_of_mem _ hq))

/-- C17, counterexample: in `Cache-Control: max-age=60, no-cache` the second directive
equals `no-cache`, yet the example run stores the response, with TTL 60. -/
theorem C17_counterexample_no_cache_after_duration :
    (Split "max-age=60, no-cache".toList ',').map TrimSpace
        = ["max-age=60".toList, "no-cache".toList]
      ∧ (HandleRoutes (exEnv "max-age=60, no-cache".toList) exRequest).filterMap Event.ttl?
          = [60]
      ∧ (HandleRoutes (exEnv "max-age=60, no-cache".toList) exRequest).countP Event.isSet
          = 1 := by
  decide

/-- C17, amended: on a cacheable GET miss with a non-empty key the directive scan
stops at the first decisive piece of the `Cache-Control` value. If a piece that is
exactly `no-cache` comes before every piece that, once trimmed, starts with `max-age`
or `s-maxage`, no TTL is extracted and nothing is stored (as for
`no-cache, max-age=60`). If such a duration directive comes first, every piece before
it being, once trimmed, neither `no-cache` nor a duration directive, the response is
stored with the `Atoi` value of the directive's text after `=`, whatever follows it
(as for `max-age=60, no-cache`). -/
theorem C17_first_decisive_directive_wins {env : Env} {request : Request} {route : Route}
    {redisKey : Str} {response : Response}
    (h : Missed env request route redisKey response) (hk : redisKey ≠ []) :
    (∀ pre post : List Str,
        Split (cacheControl response) ',' = pre ++ "no-cache".toList :: post →
        (∀ p ∈ pre, isDuration (TrimSpace p) = false) →
        (HandleRoutes env request).filterMap Event.ttl? = []
          ∧ (HandleRoutes env request).countP Event.isSet = 0)
      ∧ (∀ (pre : List Str) (d : Str) (post : List Str) (cacheTime : Str),
          Split (cacheControl response) ',' = pre ++ d :: post →
          (∀ p ∈ pre, TrimSpace p ≠ "no-cache".toList ∧ isDuration (TrimSpace p) = false) →
          isDuration (TrimSpace d) = true →
          (Split (TrimSpace d) '=')[1]? = some cacheTime → cacheTime ≠ [] →
          (HandleRoutes env request).filterMap Event.ttl? = [(Atoi cacheTime).1]) := by
  obtain ⟨front, hq, hfront⟩ := HandleRoutes_of_missed h
  obtain ⟨cacheOptions, hl, -, -, -⟩ := h.looked
  constructor
  · intro pre post hsplit hpre
    have hscan : scanCacheControl (Split (cacheControl response) ',') = some [] := by
      rw [hsplit]
      exact scanCacheControl_no_cache_first post pre hpre
    rw [hfront, storeAndEmit_skip hscan]
    constructor
    · rw [List.filterMap_append, quiet_ttls hq, emitResponse_ttls, List.append_nil]
    · rw [List.countP_append, quiet_count hq _ quiet_not_isSet, emitResponse_set_count]
  · intro pre d post cacheTime hsplit hpre hd ht hne
    have hpre' : ∀ p ∈ pre, p ≠ "no-cache".toList ∧ isDuration (TrimSpace p) = false := by
      intro p hp
      refine ⟨fun heq => (hpre p hp).1 ?_, (hpre p hp).2⟩
      rw [heq, TrimSpace_no_cache]
    have hscan : scanCacheControl (Split (cacheControl response) ',') = some cacheTime := by
      rw [hsplit, scanCacheControl_duration_first d post hd pre hpre', ht]
    rw [hfront, List.filterMap_append, quiet_ttls hq, List.nil_append,
      storeAndEmit_store_ttls hl.cacheable hk hl.isGet hscan hne]

/-- C17, witness: the amended statement at `no-cache, max-age=60` (nothing stored) and
at `max-age=60, no-cache` (stored with TTL 60) in the example deployment. -/
theorem C17_first_decisive_directive_wins_witness :
    (HandleRoutes (exEnv "no-cache, max-age=60".toList) exRequest).filterMap Event.ttl? = []
      ∧ (HandleRoutes (exEnv "max-age=60, no-cache".toList) exRequest).filterMap Event.ttl?
          = [(Atoi "60".toList).1] :=
  ⟨((C17_first_decisive_directive_wins (exEnv_missed "no-cache, max-age=60".toList)
      (by decide)).1 [] [" max-age=60".toList] (by decide) (by decide)).1,
    (C17_first_decisive_directive_wins (exEnv_missed "max-age=60, no-cache".toList)
      (by decide)).2 [] "max-age=60".toList [" no-cache".toList] "60".toList (by decide)
      (by decide) (by decide) (by decide) (by decide)⟩

/-! ## The status line -/

theorem internal_facts (x : Event) (h : x.isInternal = true) :
    x.status? = none ∧ x.isBodyWrite = false ∧ x.isPanic = false
      ∧ x.isClientWrite = false := by
  cases x <;> first | exact ⟨rfl, rfl, rfl, rfl⟩ | (simp [Event.isInternal] at h)

theorem quiet_internal (x : Event) (h : x.isQuiet = true) : x.isInternal = true := by
  cases x <;> first | rfl | (simp [Event.isQuiet] at h)

theorem settled_cons {x : Event} {t : List Event} (hx : x.isInternal = true)
    (ht : Settled t) : Settled (x :: t) := by
  obtain ⟨h1, h2, h3, h4⟩ := internal_facts x hx
  rcases ht with ⟨pre, e, post, heq, he, hpre, hpost, hp⟩ | ⟨hw, hp⟩
  · left
    refine ⟨x :: pre, e, post, by rw [heq, List.cons_append], he, ?_, hpost, ?_⟩
    · intro y hy
      rcases List.mem_cons.mp hy with rfl | hy
      · exact ⟨h1, h2⟩
      · exact hpre y hy
    · rw [List.countP_cons, hp, h3]
      rfl
  · right
    refine ⟨?_, ?_⟩
    · intro y hy
      rcases List.mem_cons.mp hy with rfl | hy
      · exact ⟨h1, h2⟩
      · exact hw y hy
    · rw [List.countP_cons, hp, h3]
      rfl

theorem settled_append {pre t : List Event} (hpre : ∀ x ∈ pre, x.isInternal = true)
    (ht : Settled t) : Settled (pre ++ t) := by
  induction pre with
  | nil => exact ht
  | cons x rest ih =>
    exact settled_cons (hpre x (List.mem_cons_self _ _))
      (ih (fun y hy => hpre y (List.mem_cons_of_mem _ hy)))

theorem settled_status_first (s : Nat) (post : List Event)
    (hpost : ∀ x ∈ post, x.status? = none ∧ x.isPanic = false) :
    Settled (Event.writeHeader s :: post) := by
  left
  refine ⟨[], .writeHeader s, post, rfl, rfl, by simp, fun x hx => (hpost x hx).1, ?_⟩
  rw [List.countP_cons, List.countP_eq_zero.mpr (fun x hx => by simp [(hpost x hx).2])]
  rfl

theorem settled_headers_then_status (H : Header) (s : Nat) (post : List Event)
    (hpost : ∀ x ∈ post, x.status? = none ∧ x.isPanic = false) :
    Settled (H.map (fun kv => Event.setHeader kv.1 kv.2) ++ Event.writeHeader s :: post) := by
  left
  refine ⟨H.map (fun kv => Event.setHeader kv.1 kv.2), .writeHeader s, post, rfl, rfl, ?_,
    fun x hx => (hpost x hx).1, ?_⟩
  · intro x hx
    obtain ⟨kv, -, rfl⟩ := List.mem_map.mp hx
    exact ⟨rfl, rfl⟩
  · have h1 : (H.map (fun kv => Event.setHeader kv.1 kv.2)).countP Event.isPanic = 0 := by
      rw [List.countP_eq_zero]
      intro x hx
      obtain ⟨kv, -, rfl⟩ := List.mem_map.mp hx
      simp [Event.isPanic]
    have h2 : post.countP Event.isPanic = 0 := by
      rw [List.countP_eq_zero]
      intro x hx
      simp [(hpost x hx).2]
    rw [List.countP_append, List.countP_cons, h1, h2]
    rfl

theorem settled_headers_then_panic (H : Header) :
    Settled (H.map (fun kv => Event.setHeader kv.1 kv.2) ++ [Event.panicked]) := by
  right
  have h1 : (H.map (fun kv => Event.setHeader kv.1 kv.2)).countP Event.isPanic = 0 := by
    rw [List.countP_eq_zero]
    intro x hx
    obtain ⟨kv, -, rfl⟩ := List.mem_map.mp hx
    simp [Event.isPanic]
  refine ⟨?_, by rw [List.countP_append, h1]; rfl⟩
  intro x hx
  rcases List.mem_append.mp hx with hx | hx
  · obtain ⟨kv, -, rfl⟩ := List.mem_map.mp hx
    exact ⟨rfl, rfl⟩
  · rw [List.mem_singleton.mp hx]
    exact ⟨rfl, rfl⟩

theorem settled_emitResponse (response : Response) : Settled (emitResponse response) := by
  by_cases hvalid : 100 ≤ response.StatusCode ∧ response.StatusCode ≤ 999
  · rw [emitResponse_valid hvalid]
    apply settled_headers_then_status
    intro x hx
    simp only [List.mem_cons, List.mem_append, List.not_mem_nil, or_false] at hx
    rcases hx with rfl | hx | rfl
    · exact ⟨rfl, rfl⟩
    · obtain ⟨m, rfl⟩ := mem_logIfError hx
      exact ⟨rfl, rfl⟩
    · exact ⟨rfl, rfl⟩
  · rw [emitResponse, writeStatus_invalid hvalid]
    exact settled_headers_then_panic _

theorem storeEvents_internal (env : Env) (redisKey : Str) (response : Response)
    (cacheTime : Str) :
    ∀ e ∈ storeEvents env redisKey response cacheTime, e.isInternal = true := by
  intro e he
  simp only [storeEvents, List.mem_append, List.mem_cons] at he
  rcases he with (he | rfl | he) | rfl | he
  · obtain ⟨m, rfl⟩ := mem_logIfError he
    rfl
  · rfl
  · obtain ⟨m, rfl⟩ := mem_logIfError he
    rfl
  · rfl
  · obtain ⟨m, rfl⟩ := mem_logIfError he
    rfl

theorem settled_panic : Settled [Event.panicked] := by
  right
  exact ⟨by simp [Event.status?, Event.isBodyWrite], rfl⟩

theorem settled_writeStatus (status : Nat) (post : List Event)
    (hpost : ∀ x ∈ post, x.status? = none ∧ x.isPanic = false) :
    Settled (writeStatus status post) := by
  unfold writeStatus
  split_ifs
  · exact settled_status_first status post hpost
  · exact settled_panic

theorem settled_storeAndEmit (env : Env) (request : Request) (route : Route)
    (redisKey : Str) (response : Response) :
    Settled (storeAndEmit env request route redisKey response) := by
  unfold storeAndEmit
  cases hcs : cacheStore env request route redisKey response with
  | none => exact settled_panic
  | some r =>
    rcases cacheStore_some hcs with hr | ⟨cacheTime, -, -, -, hr⟩
    · subst hr
      exact settled_emitResponse response
    · subst hr
      exact settled_append (storeEvents_internal _ _ _ _) (settled_emitResponse _)

theorem settled_upstream (env : Env) (request : Request) (route : Route) (token : Str)
    (claims : Value) (redisKey : Str) :
    Settled (upstream env request route token claims redisKey) := by
  unfold upstream
  refine settled_cons (by rfl) ?_
  cases hdo : env.Do request with
  | error err =>
    apply settled_status_first
    intro x hx
    simp at hx
    rcases hx with rfl | rfl <;> exact ⟨rfl, rfl⟩
  | ok fresh =>
    refine settled_cons (by rfl) ?_
    cases hm : env.modifyResponse fresh route token claims with
    | error err =>
      apply settled_status_first
      intro x hx
      simp at hx
      subst hx
      exact ⟨rfl, rfl⟩
    | ok response => exact settled_storeAndEmit _ _ _ _ _

theorem settled_send_error (status : Nat) (err : Str) :
    Settled [Event.sendErrorResponse status err] := by
  left
  exact ⟨[], .sendErrorResponse status err, [], rfl, rfl, by simp, by simp, rfl⟩

theorem prelude_internal (x : Event) (h : x.isPrelude = true) : x.isInternal = true :=
  quiet_internal x (prelude_quiet x h)

theorem settled_cacheLookup (env : Env) (request : Request) (route : Route) (token : Str)
    (claims : Value) : Settled (cacheLookup env request route token claims) := by
  unfold cacheLookup
  split_ifs with hc
  · have hevs := loadCacheOptions_prelude env (requestState env request token claims)
      route.CacheOptions []
    rcases hp : loadCacheOptions env (requestState env request token claims)
      route.CacheOptions [] with ⟨evs, res⟩
    rw [hp] at hevs
    have hint : ∀ x ∈ evs, x.isInternal = true := fun x hx => prelude_internal x (hevs x hx)
    cases res with
    | error err => exact settled_append hint (settled_send_error _ _)
    | ok cacheOptionsArray =>
      refine settled_append hint (settled_cons (by rfl) ?_)
      cases herr : (env.GetIngressRoute route.ID cacheOptionsArray).err with
      | some err => exact settled_send_error _ _
      | none =>
        simp only
        cases hhit : (env.GetIngressRoute route.ID cacheOptionsArray).isCacheHit with
        | true =>
          simp only [if_true]
          cases hres : (env.GetIngressRoute route.ID cacheOptionsArray).result with
          | none => exact settled_panic
          | some result =>
            apply settled_headers_then_status
            intro x hx
            simp at hx
            rcases hx with rfl | rfl <;> exact ⟨rfl, rfl⟩
        | false =>
          simp only [Bool.false_eq_true, if_false]
          exact settled_upstream _ _ _ _ _ _
  · exact settled_upstream _ _ _ _ _ _

/-- Every run of the handler either writes a status exactly once, with no body byte
and no panic before it, or writes nothing to the client and ends in a panic. -/
theorem settled_HandleRoutes (env : Env) (request : Request) :
    Settled (HandleRoutes env request) := by
  unfold HandleRoutes
  cases hh : getHostAndURL request with
  | none => exact settled_panic
  | some hu =>
    obtain ⟨host, url⟩ := hu
    refine settled_cons (by rfl) ?_
    cases hr : env.selectRoute host request.Method url with
    | error err =>
      apply settled_status_first
      intro x hx
      simp at hx
      subst hx
      exact ⟨rfl, rfl⟩
    | ok route =>
      refine settled_cons (by rfl) ?_
      cases hm : (env.modifyRequest route request).err with
      | some err =>
        apply settled_writeStatus
        intro x hx
        simp at hx
        subst hx
        exact ⟨rfl, rfl⟩
      | none =>
        refine settled_cons (by rfl) (settled_cons (by rfl) ?_)
        cases ht : (setRequest env (env.modifyRequest route request).request route
            (rewriteURL url route)).2 with
        | some err =>
          apply settled_status_first
          intro x hx
          simp at hx
          rcases hx with rfl | rfl <;> exact ⟨rfl, rfl⟩
        | none => exact settled_cacheLookup _ _ _ _ _

/-- A run that does not panic writes the status line exactly once. -/
theorem status_once_of_no_panic (env : Env) (request : Request)
    (hnp : (HandleRoutes env request).countP Event.isPanic = 0) :
    ((HandleRoutes env request).filterMap Event.status?).length = 1 := by
  rcases settled_HandleRoutes env request with ⟨pre, e, post, heq, he, hpre, hpost, -⟩ | ⟨-, hp⟩
  · have h1 : pre.filterMap Event.status? = [] :=
      List.filterMap_eq_nil_iff.mpr (fun x hx => (hpre x hx).1)
    have h2 : post.filterMap Event.status? = [] :=
      List.filterMap_eq_nil_iff.mpr (fun x hx => hpost x hx)
    obtain ⟨s, hs⟩ := Option.isSome_iff_exists.mp he
    rw [heq, List.filterMap_append, List.filterMap_cons, hs, h1, h2]
    rfl
  · rw [hp] at hnp
    cases hnp

/-! ## C18 -/

/-- C18, the code at the failing input `Cache-Control: s-maxage`: the run of the
example deployment is no error exit, no cache-hit exit and no normal upstream exit; it
ends in the panic of the read of element 1 at line 132, after the upstream send and
the response mutation, and the status line is written zero times instead of once. -/
theorem C18_panic_path_writes_no_status :
    scanCacheControl (Split "s-maxage".toList ',') = none
      ∧ (HandleRoutes (exEnv "s-maxage".toList) exRequest).filterMap Event.status? = []
      ∧ ((HandleRoutes (exEnv "s-maxage".toList) exRequest).filterMap Event.status?).length ≠ 1
      ∧ (HandleRoutes (exEnv "s-maxage".toList) exRequest).countP Event.isHttpDo = 1
      ∧ (HandleRoutes (exEnv "s-maxage".toList) exRequest).countP Event.isModifyResponse = 1
      ∧ (HandleRoutes (exEnv "s-maxage".toList) exRequest).getLast?.map Event.isPanic
          = some true := by
  decide

/-! ## C1 -/

/-- C1, counterexample: for `Cache-Control: max-age=abc` the selected duration text
`abc` does not parse, and the run of the example deployment, which reaches the
cache-store decision, calls `SetIngressRouteKey` once, with TTL 0. -/
theorem C1_counterexample_stored_on_parse_failure :
    scanCacheControl (Split (cacheControl (exResponse "max-age=abc".toList)) ',')
        = some "abc".toList
      ∧ Atoi "abc".toList = (0, some .ErrSyntax)
      ∧ (HandleRoutes (exEnv "max-age=abc".toList) exRequest).countP Event.isSet = 1
      ∧ (HandleRoutes (exEnv "max-age=abc".toList) exRequest).filterMap Event.ttl? = [0] := by
  decide

/-- C1, amended: on a cacheable GET miss with a non-empty key, when the TTL text the
directive scan selects does not parse as an integer, the failure is only logged. If
the text is non-empty (as in `max-age=abc`) `SetIngressRouteKey` is still called,
exactly once, with the integer `strconv.Atoi` returns next to its error, which is 0
for a syntax error; if the text is empty (as in `max-age=`) it is not called. In both
cases, when the status code of the response is one `WriteHeader` accepts (100 to
999), the run does not panic and ends by emitting the upstream response: its status
is the only status written, its body the only body written, and the writer's header
map holds its headers. -/
theorem C1_parse_failure_logged_store_proceeds {env : Env} {request : Request}
    {route : Route} {redisKey : Str} {response : Response} {cacheTime : Str}
    (h : Missed env request route redisKey response) (hk : redisKey ≠ [])
    (hscan : scanCacheControl (Split (cacheControl response) ',') = some cacheTime)
    (hbad : (Atoi cacheTime).2 ≠ none) :
    (HandleRoutes env request).filterMap Event.ttl?
        = (if cacheTime = [] then [] else [(Atoi cacheTime).1])
      ∧ ((Atoi cacheTime).2 = some .ErrSyntax → (Atoi cacheTime).1 = 0)
      ∧ (cacheTime ≠ [] → ∃ e, (Atoi cacheTime).2 = some e
          ∧ Event.logError e.Error ∈ HandleRoutes env request)
      ∧ (100 ≤ response.StatusCode ∧ response.StatusCode ≤ 999 →
          (HandleRoutes env request).countP Event.isPanic = 0
            ∧ (∃ pre, HandleRoutes env request = pre
                ++ emitResponse (if cacheTime = [] then response else rewrapped response))
            ∧ (HandleRoutes env request).filterMap Event.status? = [response.StatusCode]
            ∧ (HandleRoutes env request).filterMap Event.body? = [response.Body.data]
            ∧ ((response.Header.map Prod.fst).Nodup → ∀ kv ∈ response.Header,
                writerHeader kv.1 (HandleRoutes env request) = some kv.2)) := by
  obtain ⟨pre, hq, hpre⟩ := HandleRoutes_of_missed h
  obtain ⟨cacheOptions, hl, -, -, -⟩ := h.looked
  obtain ⟨fresh, hdo, hmod⟩ := h.answered
  refine ⟨?_, Atoi_syntax_zero cacheTime, ?_, ?_⟩
  · rw [hpre, List.filterMap_append, quiet_ttls hq, List.nil_append]
    by_cases hne : cacheTime = []
    · subst hne
      rw [if_pos rfl, storeAndEmit_skip hscan, emitResponse_ttls]
    · rw [if_neg hne, storeAndEmit_store_ttls hl.cacheable hk hl.isGet hscan hne]
  · intro hne
    obtain ⟨e, he⟩ := Option.ne_none_iff_exists'.mp hbad
    refine ⟨e, he, ?_⟩
    rw [hpre, storeAndEmit_store hl.cacheable hk hl.isGet hscan hne]
    simp [storeEvents, he, logIfError]
  · intro hvalid
    have hnp : (HandleRoutes env request).countP Event.isPanic = 0 := by
      rw [hpre, List.countP_append, storeAndEmit_no_panic hscan hvalid,
        quiet_count hq _ quiet_not_panic]
    obtain ⟨-, hstatus, hbody, hheader⟩ :=
      upstream_response_reaches_client h.sent hdo hmod hnp
    refine ⟨hnp, ?_, hstatus, hbody, hheader⟩
    by_cases hne : cacheTime = []
    · subst hne
      exact ⟨pre, by rw [hpre, storeAndEmit_skip hscan, if_pos rfl]⟩
    · rw [hpre, storeAndEmit_store hl.cacheable hk hl.isGet hscan hne, if_neg hne,
        ← List.append_assoc]
      exact ⟨_, rfl⟩

/-- C1, witness: the amended statement at `Cache-Control: max-age=abc` in the example
deployment, whose upstream answers 200 with the body `hello`. -/
theorem C1_parse_failure_logged_store_proceeds_witness :
    (Atoi "abc".toList).2 ≠ none
      ∧ (HandleRoutes (exEnv "max-age=abc".toList) exRequest).filterMap Event.ttl?
          = (if "abc".toList = [] then [] else [(Atoi "abc".toList).1])
      ∧ (HandleRoutes (exEnv "max-age=abc".toList) exRequest).countP Event.isPanic = 0
      ∧ (HandleRoutes (exEnv "max-age=abc".toList) exRequest).filterMap Event.status?
          = [200]
      ∧ (HandleRoutes (exEnv "max-age=abc".toList) exRequest).filterMap Event.body?
          = ["hello".toList] :=
  have hw := C1_parse_failure_logged_store_proceeds (exEnv_missed "max-age=abc".toList)
    (by decide) (by decide : scanCacheControl
      (Split (cacheControl (exResponse "max-age=abc".toList)) ',') = some "abc".toList)
    (by decide)
  have he := hw.2.2.2 (by decide)
  ⟨by decide, hw.1, he.1, he.2.2.1, he.2.2.2.1⟩

end Routing
